import Mathlib

/-!
# Verification of the AIStore metasyncer core

A shallow embedding of the control-plane metadata synchronizer
(`metasync.go`) and of the network-plane selection logic of the
configuration loader (`cmn/config.go`).

State is passed explicitly; the broadcast fan-out and the cluster-map
snapshots taken during a `doSync` invocation are supplied by an
environment value, and the observable effects (broadcasts, sleeps,
per-peer delivery-state writes) are collected into a trace.
-/

set_option maxRecDepth 4000

/-! ## Association lists (Go maps are modelled as keyed lists) -/

/-- Lookup in an association list, first match wins. -/
def alookup {α : Type} : List (String × α) → String → Option α
  | [], _ => none
  | (k, v) :: rest, key => if k = key then some v else alookup rest key

/-- Insert-or-replace in an association list (Go map assignment). -/
def aset {α : Type} : List (String × α) → String → α → List (String × α)
  | [], key, v => [(key, v)]
  | (k, w) :: rest, key, v =>
      if k = key then (key, v) :: rest else (k, w) :: aset rest key v

/-- Add an id to a set-like list if not yet present (Go map-as-set insert). -/
def rinsert (l : List String) (q : String) : List String :=
  if l.contains q then l else l ++ [q]

/-! ## Data model -/

/-- A REVS artifact: tag, version and its (already computed) serialization.
The `revs` interface of the source exposes `tag()`, `version()` and
`marshal()`; `marshalled` is the byte string `marshal` returns. -/
structure Revs where
  tag : String
  version : Int
  marshalled : String
deriving Repr, DecidableEq

/-- The action message that rides along with each artifact
(`actionMsgInternal`): action name, optional joining-node id, and its
serialized form. -/
structure ActionMsg where
  action : String
  newDaemonID : String
  marshalled : String
deriving Repr, DecidableEq

/-- `revspair` of the source. -/
structure RevsPair where
  revs : Revs
  msgInt : ActionMsg
deriving Repr, DecidableEq

/-- Cluster map snapshot (`smapX`): target ids, proxy ids, the primary
proxy id, and the map version. -/
structure SmapX where
  tmap : List String
  pmap : List String
  proxySI : Option String
  sversion : Int
deriving Repr, DecidableEq

/-- Modelled from the spec: `smapX.isPrimary` is not among the sources at
hand; per the spec the CMS records the identifier of the primary gateway
and a node is primary iff that identifier is its own. -/
def SmapX.isPrimary (m : SmapX) (selfID : String) : Bool :=
  match m.proxySI with
  | some pid => pid = selfID
  | none => false

/-- Modelled from the spec: `smapX.containsID` checks membership of a
node id in the gateways or targets maps. -/
def SmapX.containsID (m : SmapX) (id : String) : Bool :=
  m.tmap.contains id || m.pmap.contains id

/-- Metasyncer private state: `revsmap` (per-daemon tag to delivered
version), `last` (last sync-ed artifact by tag) and `lastclone` (its
recorded serialization, enforcing CoW). -/
structure MetaState where
  revsmap : List (String × List (String × Int))
  last : List (String × Revs)
  lastclone : List (String × String)
deriving Repr, DecidableEq

/-- The state `newmetasyncer` starts from (all maps empty). -/
def initMS : MetaState := ⟨[], [], []⟩

/-- The configuration knobs the metasyncer reads (durations as opaque
naturals). -/
structure Config where
  cplaneOperation : Nat
  maxKeepalive : Nat
  retrySyncTime : Nat
deriving Repr, DecidableEq

/-- The body handed to the broadcaster: a marshalled payload map for a
sync, the marshalled action message alone for a notify. -/
inductive BcastBody where
  | payloadB (kvs : List (String × String))
  | notifyB (msg : String)
deriving Repr, DecidableEq

/-- Observable effects of the metasyncer: a broadcast (method, body,
timeout, receiver ids), a sleep, and a write to the per-peer delivery
state `revsmap[sid].vermap[tag] = ver`. -/
inductive Event where
  | bcastE (method : String) (body : BcastBody) (timeoutD : Nat) (nodes : List String)
  | sleepE (d : Nat)
  | writeE (sid tag : String) (ver : Int)
deriving Repr, DecidableEq

/-- Per-peer result of one broadcast call. -/
inductive Outcome where
  | ok
  | refused
  | errOther
deriving Repr, DecidableEq

/-- Environment of one `doSync` invocation: the cluster-map snapshot at
entry, the per-peer outcomes of the initial broadcast, the re-snapshots
and outcomes of each refused-retry round, and the final housekeeping
snapshot. -/
structure SyncEnv where
  smap0 : SmapX
  out0 : String → Outcome
  smapR : Nat → SmapX
  outR : Nat → String → Outcome
  smapF : SmapX

/-! ## Constants of the source -/

def smaptag : String := "smaptag"
def bucketmdtag : String := "bucketmdtag"
def tokentag : String := "tokentag"
def actiontag : String := "-action"

/-- Modelled from the spec: the value of `cmn.ActRegTarget` is not among
the sources at hand; the spec's action-envelope example names the
register-target action. Only equality with itself matters. -/
def actRegTarget : String := "register-target"

/-! ## Metasyncer helpers (from `metasync.go`) -/

/-- `lversion`: version of the last sync-ed artifact of a tag, 0 if none. -/
def lversion (st : MetaState) (tag : String) : Int :=
  match alookup st.last tag with
  | some r => r.version
  | none => 0

/-- `countNewMembers`: cluster members without a `revsmap` entry. -/
def countNewMembers (st : MetaState) (smap : SmapX) : Nat :=
  ((smap.tmap ++ smap.pmap).filter (fun id => (alookup st.revsmap id).isNone)).length

/-- Step 1 of `doSync`: the CoW audit fails iff some last sync-ed
artifact re-marshals to something other than its recorded clone. -/
def cowViolation (st : MetaState) : Bool :=
  st.last.any fun e =>
    match alookup st.lastclone e.1 with
    | some c => e.2.marshalled != c
    | none => false

/-- The fatal branch of the per-pair filter: an `smap`-tagged artifact
newer than the current cluster map aborts the process. -/
def smapFatal (smap : SmapX) (pairs : List RevsPair) : Bool :=
  pairs.any fun pr => pr.revs.tag = smaptag && pr.revs.version > smap.sversion

/-- The keep/drop decision of the per-pair filter: drop a duplicate
(same version, no new members) and drop a version below the last
sync-ed one. -/
def keepPair (st : MetaState) (newCnt : Nat) (pr : RevsPair) : Bool :=
  let lv := lversion st pr.revs.tag
  !((lv = pr.revs.version && newCnt = 0) || lv > pr.revs.version)

/-- Step 2 of `doSync`, `last` part: record each surviving artifact. -/
def publishLast (last : List (String × Revs)) (ps : List RevsPair) : List (String × Revs) :=
  ps.foldl (fun m pr => aset m pr.revs.tag pr.revs) last

/-- Step 2 of `doSync`, `lastclone` part: record each serialization. -/
def publishClone (lc : List (String × String)) (ps : List RevsPair) : List (String × String) :=
  ps.foldl (fun m pr => aset m pr.revs.tag pr.revs.marshalled) lc

/-- Step 2 of `doSync`, payload part: `tag => artifact` and
`tag-action => action message` for each surviving pair. -/
def publishPayload (ps : List RevsPair) : List (String × String) :=
  ps.foldl
    (fun m pr =>
      aset (aset m pr.revs.tag pr.revs.marshalled) (pr.revs.tag ++ actiontag) pr.msgInt.marshalled)
    []

/-- Step 2 of `doSync`: the id of a joining target, to be force-retried
on refusal. -/
def newTargetIDof (ps : List RevsPair) : String :=
  ps.foldl (fun n pr => if pr.msgInt.action = actRegTarget then pr.msgInt.newDaemonID else n) ""

/-- The delivery-state writes `syncDone` performs, as trace events. -/
def writesOf (sid : String) (ps : List RevsPair) : List Event :=
  ps.map fun pr => .writeE sid pr.revs.tag pr.revs.version

/-- `vermap` update of `syncDone`: record each pair's version by tag. -/
def vermapSet (vm : List (String × Int)) (ps : List RevsPair) : List (String × Int) :=
  ps.foldl (fun m pr => aset m pr.revs.tag pr.revs.version) vm

/-- `syncDone`: create the daemon's entry if missing, then record every
pair's version. -/
def syncDone (st : MetaState) (sid : String) (ps : List RevsPair) : MetaState :=
  let vm := (alookup st.revsmap sid).getD []
  { st with revsmap := aset st.revsmap sid (vermapSet vm ps) }

/-- Modelled from the spec: the broadcaster (`broadcastTo` with scope
all-nodes) fans the request to every target and gateway of the given
cluster map and excludes self; its implementation is not among the
sources at hand. -/
def bcastNodes (m : SmapX) (selfID : String) : List String :=
  (m.tmap ++ m.pmap).filter (fun id => id ≠ selfID)

/-- One broadcast result in step 4 of `doSync`: success records the
delivery state, connection-refused (or the joining target) goes to the
refused set, anything else counts as a failure. -/
def classifyStep (out : String → Outcome) (ps : List RevsPair) (ntid : String)
    (acc : MetaState × List String × Nat × List Event) (q : String) :
    MetaState × List String × Nat × List Event :=
  match out q with
  | .ok =>
      if ps.isEmpty then acc
      else (syncDone acc.1 q ps, acc.2.1, acc.2.2.1, acc.2.2.2 ++ writesOf q ps)
  | .refused => (acc.1, rinsert acc.2.1 q, acc.2.2.1, acc.2.2.2)
  | .errOther =>
      if q = ntid then (acc.1, rinsert acc.2.1 q, acc.2.2.1, acc.2.2.2)
      else (acc.1, acc.2.1, acc.2.2.1 + 1, acc.2.2.2)

/-- Step 4 of `doSync`: walk all the broadcast results. -/
def classify (st : MetaState) (out : String → Outcome) (nodes : List String)
    (ps : List RevsPair) (ntid : String) :
    MetaState × List String × Nat × List Event :=
  nodes.foldl (classifyStep out ps ntid) (st, [], 0, [])

/-- One broadcast result in `handleRefused`: success removes the peer
from the refused set and records the delivery state. -/
def hrfStep (out : String → Outcome) (ps : List RevsPair)
    (acc : MetaState × List String × List Event) (q : String) :
    MetaState × List String × List Event :=
  match out q with
  | .ok => (syncDone acc.1 q ps, acc.2.1.filter (fun x => x ≠ q), acc.2.2 ++ writesOf q ps)
  | _ => acc

/-- The result-walk of `handleRefused`. -/
def handleRefusedFold (st : MetaState) (refused : List String) (resNodes : List String)
    (out : String → Outcome) (ps : List RevsPair) :
    MetaState × List String × List Event :=
  resNodes.foldl (hrfStep out ps) (st, refused, [])

/-- Result of the refused-retry loop: either the node found itself no
longer primary (`becomeNonPrimary` bail) or the loop ran out. -/
inductive LoopRes where
  | early (st : MetaState) (refused : List String) (trace : List Event)
  | done (st : MetaState) (refused : List String) (trace : List Event)
deriving Repr, DecidableEq

/-- Step 5 of `doSync`: up to 10 rounds over the refused set; each round
sleeps `cplane-operation`, re-snapshots the cluster map, bails if no
longer primary, and re-broadcasts to the refused set with timeout
`max-keepalive`. -/
def retryLoop (selfID : String) (cfg : Config) (env : SyncEnv) (method : String)
    (body : BcastBody) (ps : List RevsPair) :
    Nat → Nat → MetaState → List String → List Event → LoopRes
  | 0, _, st, refused, tr => .done st refused tr
  | fuel + 1, round, st, refused, tr =>
      if refused.isEmpty then .done st refused tr
      else
        let tr1 := tr ++ [.sleepE cfg.cplaneOperation]
        let smap := env.smapR round
        if ¬ smap.isPrimary selfID then .early st refused tr1
        else
          let resNodes := refused.filter (fun q => q ≠ selfID)
          let ev : Event := .bcastE method body cfg.maxKeepalive resNodes
          let r := handleRefusedFold st refused resNodes (env.outR round) ps
          retryLoop selfID cfg env method body ps fuel (round + 1) r.1 r.2.1 (tr1 ++ ev :: r.2.2)

/-- Step 6 of `doSync`: drop delivery-state entries of daemons no longer
in the cluster map. -/
def housekeep (st : MetaState) (smap : SmapX) : MetaState :=
  { st with revsmap := st.revsmap.filter (fun e => smap.containsID e.1) }

/-- Result of `doSync`: a fatal assertion (with the trace emitted before
it), or the new state, the failure count, the trace, whether the
`becomeNonPrimary` bail was taken, and the refused set left behind. -/
inductive SyncRes where
  | fatal (trace : List Event)
  | ok (st : MetaState) (cnt : Nat) (trace : List Event) (early : Bool) (refusedRem : List String)
deriving Repr, DecidableEq

/-- The tail of `doSync` after the retry loop: on the `becomeNonPrimary`
bail return the accumulated count; otherwise housekeep and add the
still-refused peers to the count. -/
def finishSync (smapF : SmapX) (cnt0 : Nat) : LoopRes → SyncRes
  | .early st2 ref2 tr2 => .ok st2 cnt0 tr2 true ref2
  | .done st2 ref2 tr2 => .ok (housekeep st2 smapF) (cnt0 + ref2.length) tr2 false ref2

/-- Steps 3 to 6 of `doSync`: broadcast, classify, retry the refused,
housekeep. -/
def afterBcast (selfID : String) (cfg : Config) (env : SyncEnv) (st : MetaState)
    (method : String) (body : BcastBody) (ps : List RevsPair) (ntid : String) : SyncRes :=
  let nodes := bcastNodes env.smap0 selfID
  let ev0 : Event := .bcastE method body (2 * cfg.cplaneOperation) nodes
  let cr := classify st env.out0 nodes ps ntid
  finishSync env.smapF cr.2.2.1
    (retryLoop selfID cfg env method body ps 10 0 cr.1 cr.2.1 (ev0 :: cr.2.2.2))

/-- `doSync` (the six-step main method of the metasyncer). -/
def doSync (selfID : String) (cfg : Config) (st : MetaState) (env : SyncEnv)
    (pairs : List RevsPair) (msgInt : Option ActionMsg) : SyncRes :=
  let smap := env.smap0
  let newCnt := countNewMembers st smap
  if cowViolation st then .fatal []
  else if pairs.isEmpty then
    let body := BcastBody.notifyB (match msgInt with | some m => m.marshalled | none => "null")
    afterBcast selfID cfg env st "POST" body [] ""
  else if msgInt.isSome then .fatal []
  else if smapFatal smap pairs then .fatal []
  else
    let ps := pairs.filter (keepPair st newCnt)
    if ps.isEmpty then .ok st 0 [] false []
    else
      let st1 : MetaState :=
        { st with last := publishLast st.last ps, lastclone := publishClone st.lastclone ps }
      afterBcast selfID cfg env st1 "PUT" (.payloadB (publishPayload ps)) ps (newTargetIDof ps)

/-! ## `pending` and `handlePending` -/

/-- The message `handlePending` attaches to every re-broadcast pair
(`newActionMsgInternalStr "metasync: handle-pending"`). -/
def pendingMsg : ActionMsg := ⟨"metasync: handle-pending", "", "handle-pending-msg"⟩

/-- The in-sync walk of `pending` for one daemon: the first tag whose
recorded version differs from the last sync-ed one breaks; a recorded
version above the last sync-ed one fails the assertion (`.error`). -/
def checkInSync (vm : List (String × Int)) : List (String × Revs) → Except Unit Bool
  | [] => .ok true
  | (tag, r) :: rest =>
      match alookup vm tag with
      | none => .ok false
      | some v =>
          if v = r.version then checkInSync vm rest
          else if v < r.version then .ok false else .error ()

/-- The walk of `pending(needMap = true)` over the node ids: daemons with
no delivery-state entry get an empty one and count as pending; daemons
with an entry count as pending when some tag is out of sync. -/
def pendingCalcGo : List String → MetaState → Nat → List String →
    Except Unit (MetaState × Nat × List String)
  | [], st, count, plist => .ok (st, count, plist)
  | id :: rest, st, count, plist =>
      match alookup st.revsmap id with
      | none =>
          pendingCalcGo rest { st with revsmap := aset st.revsmap id [] }
            (count + 1) (rinsert plist id)
      | some vm =>
          match checkInSync vm st.last with
          | .error e => .error e
          | .ok true => pendingCalcGo rest st count plist
          | .ok false => pendingCalcGo rest st (count + 1) (rinsert plist id)

/-- `pending(needMap = true)`: walk targets then proxies. -/
def pendingCalc (st : MetaState) (smap : SmapX) :
    Except Unit (MetaState × Nat × List String) :=
  pendingCalcGo (smap.tmap ++ smap.pmap) st 0 []

/-- The pairs `handlePending` re-broadcasts: every last sync-ed artifact,
all with the same handle-pending message. -/
def pairsOfLast (last : List (String × Revs)) : List RevsPair :=
  last.map fun e => ⟨e.2, pendingMsg⟩

/-- The payload `handlePending` re-broadcasts: `tag => artifact` and
`tag-action => message` for every last sync-ed artifact. -/
def pendingPayload (last : List (String × Revs)) : List (String × String) :=
  last.foldl
    (fun m e => aset (aset m e.1 e.2.marshalled) (e.1 ++ actiontag) pendingMsg.marshalled)
    []

/-- Environment of one `handlePending` invocation: the cluster-map
snapshot and the per-peer outcomes of its broadcast. -/
structure PendEnv where
  smap : SmapX
  out : String → Outcome

/-- One broadcast result in `handlePending`: success records the
delivery state, failure counts. -/
def pendStep (out : String → Outcome) (pairs : List RevsPair)
    (acc : MetaState × Nat × List Event) (q : String) :
    MetaState × Nat × List Event :=
  match out q with
  | .ok => (syncDone acc.1 q pairs, acc.2.1, acc.2.2 ++ writesOf q pairs)
  | _ => (acc.1, acc.2.1 + 1, acc.2.2)

/-- `handlePending`: compute the pending set; if non-empty, re-broadcast
the full last sync-ed set (method PUT, timeout `cplane-operation`) to it
and count the failures. `none` is the `pending` assertion failure. -/
def handlePending (selfID : String) (cfg : Config) (st : MetaState) (envP : PendEnv) :
    Option (MetaState × Nat × List Event) :=
  let smap := envP.smap
  if ¬ smap.isPrimary selfID then some (st, 0, [])
  else
    match pendingCalc st smap with
    | .error _ => none
    | .ok (st1, count, plist) =>
        if count = 0 then some (st1, 0, [])
        else
          let pairs := pairsOfLast st1.last
          let body := BcastBody.payloadB (pendingPayload st1.last)
          let resNodes := plist.filter (fun q => q ≠ selfID)
          let ev : Event := .bcastE "PUT" body cfg.cplaneOperation resNodes
          let fr := resNodes.foldl (pendStep envP.out pairs) (st1, 0, [])
          some (fr.1, fr.2.1, ev :: fr.2.2)

/-! ## The `Run` loop and the caller-facing API -/

/-- A work request (`revsReq`): sync pairs or a bare notify message. -/
structure RevsReq where
  pairs : List RevsPair
  msgInt : Option ActionMsg
deriving Repr, DecidableEq

/-- `revsReq.isNil`: the state-reset request. -/
def RevsReq.isNil (r : RevsReq) : Bool := r.pairs.isEmpty && r.msgInt.isNone

/-- The request `becomeNonPrimary` enqueues. -/
def becomeNonPrimaryReq : RevsReq := ⟨[], none⟩

/-- The `Run` loop's own state: the metasyncer state plus whether the
retry timer is currently stopped. -/
structure LoopState where
  ms : MetaState
  timerStopped : Bool
deriving Repr, DecidableEq

/-- One wake-up of the `Run` select loop: a work request or the retry
timer firing. -/
inductive RunEv where
  | work (req : RevsReq) (env : SyncEnv)
  | timerFire (envP : PendEnv)

/-- One iteration of `Run`: the returned `Option Nat` is the duration the
retry timer was `Reset` to, if it was. `none` overall is a fatal
assertion inside the handler. -/
def runStep (selfID : String) (cfg : Config) (ls : LoopState) :
    RunEv → Option (LoopState × List Event × Option Nat)
  | .work req env =>
      if req.isNil then some (⟨initMS, true⟩, [], none)
      else
        match doSync selfID cfg ls.ms env req.pairs req.msgInt with
        | .fatal _ => none
        | .ok st' cnt tr _ _ =>
            if cnt > 0 && ls.timerStopped && !req.pairs.isEmpty then
              some (⟨st', false⟩, tr, some cfg.retrySyncTime)
            else some (⟨st', ls.timerStopped⟩, tr, none)
  | .timerFire envP =>
      match handlePending selfID cfg ls.ms envP with
      | none => none
      | some (st', cnt, tr) =>
          if cnt > 0 then some (⟨st', false⟩, tr, some cfg.retrySyncTime)
          else some (⟨st', true⟩, tr, none)

/-- `checkPrimary` of the metasyncer. -/
def checkPrimary (smap : SmapX) (selfID : String) : Bool := smap.isPrimary selfID

/-- What happens to a caller's request before it reaches the work
channel. -/
inductive EnqueueRes where
  | dropped
  | assertFail
  | enqueued (req : RevsReq)
deriving Repr, DecidableEq

/-- `metasyncer.sync`: drop when not primary, assert on an empty pair
list, otherwise enqueue. -/
def syncCall (selfID : String) (smap : SmapX) (pairs : List RevsPair) : EnqueueRes :=
  if ¬ checkPrimary smap selfID then .dropped
  else if pairs.length = 0 then .assertFail
  else .enqueued ⟨pairs, none⟩

/-- `metasyncer.notify`: drop when not primary, otherwise enqueue the
bare message. -/
def notifyCall (selfID : String) (smap : SmapX) (msg : Option ActionMsg) : EnqueueRes :=
  if ¬ checkPrimary smap selfID then .dropped
  else .enqueued ⟨[], msg⟩

/-! ## `LoadConfig` network-plane selection (`cmn/config.go`) -/

/-- The network-related configuration keys `LoadConfig` reads. -/
structure NetConf where
  ipv4 : String
  ipv4IntraControl : String
  ipv4IntraData : String
  port : Nat
  portIntraControl : Nat
  portIntraData : Nat
deriving Repr, DecidableEq

/-- `Net.UseIntraControl` as computed by `LoadConfig`. -/
def useIntraControl (c : NetConf) : Bool :=
  let differentIPs := c.ipv4 != c.ipv4IntraControl
  let differentPorts := c.port != c.portIntraControl
  if c.ipv4IntraControl != "" && c.portIntraControl != 0 && (differentIPs || differentPorts)
  then true else false

/-- `Net.UseIntraData` as computed by `LoadConfig`. -/
def useIntraData (c : NetConf) : Bool :=
  let differentIPs := c.ipv4 != c.ipv4IntraData
  let differentPorts := c.port != c.portIntraData
  if c.ipv4IntraData != "" && c.portIntraData != 0 && (differentIPs || differentPorts)
  then true else false

/-! ## Traces, reachability, and observation helpers -/

/-- Number of sleeps in a trace (retry rounds entered). -/
def sleepCount (tr : List Event) : Nat :=
  (tr.filter fun e => match e with | .sleepE _ => true | _ => false).length

/-- Number of broadcasts in a trace. -/
def bcastCount (tr : List Event) : Nat :=
  (tr.filter fun e => match e with | .bcastE _ _ _ _ => true | _ => false).length

/-- The successive values written to `revsmap[sid].vermap[tag]` along a
trace, in order. -/
def writesAt (tr : List Event) (sid tag : String) : List Int :=
  tr.filterMap fun e =>
    match e with
    | .writeE q t v => if q = sid ∧ t = tag then some v else none
    | _ => none

/-- The recorded delivered version of `sid` for `tag`, if any. -/
def vmLookup (st : MetaState) (sid tag : String) : Option Int :=
  (alookup st.revsmap sid).bind fun vm => alookup vm tag

/-- `revsmap[sid].vermap[tag]` exists and is at least `v`. -/
def vermapAtLeast (st : MetaState) (sid tag : String) (v : Int) : Bool :=
  match vmLookup st sid tag with
  | some w => v ≤ w
  | none => false

/-- All node ids of a cluster map. -/
def smapIDs (m : SmapX) : List String := m.tmap ++ m.pmap

/-- The operations whose interleavings drive the metasyncer state: a
sync (`doSync` with pairs), a notify (`doSync` without), and a pending
retry (`handlePending`, which includes `handleRefused` effects inside
`doSync`). -/
inductive Act where
  | syncA (env : SyncEnv) (pairs : List RevsPair)
  | notifyA (env : SyncEnv) (msg : ActionMsg)
  | pendA (envP : PendEnv)

/-- Apply one operation to the metasyncer state; `none` is a fatal
assertion. -/
def applyAct (selfID : String) (cfg : Config) (st : MetaState) :
    Act → Option (MetaState × List Event)
  | .syncA env pairs =>
      match doSync selfID cfg st env pairs none with
      | .fatal _ => none
      | .ok st' _ tr _ _ => some (st', tr)
  | .notifyA env msg =>
      match doSync selfID cfg st env [] (some msg) with
      | .fatal _ => none
      | .ok st' _ tr _ _ => some (st', tr)
  | .pendA envP => (handlePending selfID cfg st envP).map fun r => (r.1, r.2.2)

/-- Every operation is admissible. -/
def anyAct : Act → Prop := fun _ => True

/-- Admissible operations whose sync pair lists carry pairwise-distinct
tags (every caller of `sync` passes distinct artifact kinds). -/
def actTagsNodup : Act → Prop
  | .syncA _ pairs => (pairs.map fun pr => pr.revs.tag).Nodup
  | _ => True

/-- States (with their accumulated traces) reachable from the fresh
metasyncer by interleaving operations admitted by `P`. -/
inductive Reach (P : Act → Prop) (selfID : String) (cfg : Config) :
    MetaState → List Event → Prop
  | init : Reach P selfID cfg initMS []
  | step {st tr a st' tr'} : Reach P selfID cfg st tr → P a →
      applyAct selfID cfg st a = some (st', tr') → Reach P selfID cfg st' (tr ++ tr')

/-! ## Result projections and concrete scenarios -/

/-- Trace of a `doSync` result. -/
def SyncRes.traceOf : SyncRes → List Event
  | .fatal tr => tr
  | .ok _ _ tr _ _ => tr

/-- Final state of a `doSync` result (initial state unavailable on fatal). -/
def SyncRes.stateOf (dflt : MetaState) : SyncRes → MetaState
  | .fatal _ => dflt
  | .ok st _ _ _ _ => st

/-- Failure count of a `doSync` result. -/
def SyncRes.cntOf : SyncRes → Nat
  | .fatal _ => 0
  | .ok _ cnt _ _ _ => cnt

/-- Whether the `becomeNonPrimary` bail was taken. -/
def SyncRes.earlyOf : SyncRes → Bool
  | .fatal _ => false
  | .ok _ _ _ e _ => e

/-- The payload of the first broadcast of a trace, if any. -/
def firstPayload (tr : List Event) : Option (List (String × String)) :=
  tr.findSome? fun e =>
    match e with
    | .bcastE _ (.payloadB kvs) _ _ => some kvs
    | _ => none

def cfg0 : Config := ⟨3, 7, 11⟩

/-- A two-node cluster: primary proxy `p`, target `t1`, map version 1. -/
def smapA : SmapX := ⟨["t1"], ["p"], some "p", 1⟩

/-- The same membership with the primary moved away from `p`. -/
def smapB : SmapX := ⟨["t1"], ["p"], some "x", 1⟩

/-- Stable, all-successful environment over `smapA`. -/
def envOK : SyncEnv := ⟨smapA, fun _ => .ok, fun _ => smapA, fun _ _ => .ok, smapA⟩

/-- `t1` refuses the first broadcast and `p` loses primacy before the
first retry round. -/
def envRefuse : SyncEnv := ⟨smapA, fun _ => .refused, fun _ => smapB, fun _ _ => .ok, smapA⟩

def msgA : ActionMsg := ⟨"act", "", "msgjson"⟩

def pairA : RevsPair := ⟨⟨"bucketmdtag", 1, "bmd1"⟩, msgA⟩

/-- State after one successful sync of `pairA` over `envOK`. -/
def st1 : MetaState :=
  ⟨[("t1", [("bucketmdtag", 1)])],
   [("bucketmdtag", ⟨"bucketmdtag", 1, "bmd1"⟩)],
   [("bucketmdtag", "bmd1")]⟩

/-- Trace of one successful sync of `pairA` over `envOK`. -/
def tr1 : List Event :=
  [.bcastE "PUT" (.payloadB [("bucketmdtag", "bmd1"), ("bucketmdtag-action", "msgjson")]) 6 ["t1"],
   .writeE "t1" "bucketmdtag" 1]

def pair7 : RevsPair := ⟨⟨"tagA", 7, "a7"⟩, msgA⟩

def pair5 : RevsPair := ⟨⟨"tagA", 5, "a5"⟩, msgA⟩

/-- State after syncing the duplicate-tag list `[pair7, pair5]`. -/
def stC2 : MetaState :=
  ⟨[("t1", [("tagA", 5)])], [("tagA", ⟨"tagA", 5, "a5"⟩)], [("tagA", "a5")]⟩

/-- Trace of syncing the duplicate-tag list `[pair7, pair5]`. -/
def trC2 : List Event :=
  [.bcastE "PUT" (.payloadB [("tagA", "a5"), ("tagA-action", "msgjson")]) 6 ["t1"],
   .writeE "t1" "tagA" 7, .writeE "t1" "tagA" 5]

/-- Environment where every broadcast to `t1` fails with a non-refusal
error, so `doSync` counts a failure. -/
def envFail : SyncEnv := ⟨smapA, fun _ => .errOther, fun _ => smapA, fun _ _ => .ok, smapA⟩

/-- State after syncing `pairA` over `envFail`: published but with no
delivery recorded. -/
def stF : MetaState :=
  ⟨[], [("bucketmdtag", ⟨"bucketmdtag", 1, "bmd1"⟩)], [("bucketmdtag", "bmd1")]⟩

/-- Trace of syncing `pairA` over `envFail`: the broadcast and no write. -/
def trF : List Event :=
  [.bcastE "PUT" (.payloadB [("bucketmdtag", "bmd1"), ("bucketmdtag-action", "msgjson")]) 6 ["t1"]]

/-- `smapA` after target `t2` joins. -/
def smapC : SmapX := ⟨["t1", "t2"], ["p"], some "p", 1⟩

/-- Pending environment over `smapC` where every broadcast succeeds. -/
def envC : PendEnv := ⟨smapC, fun _ => .ok⟩

/-- The pending computation over `st1` and `smapC`: `t2` and `p` have no
recorded delivery of the published tag. -/
def stMid : MetaState :=
  ⟨[("t1", [("bucketmdtag", 1)]), ("t2", []), ("p", [])],
   [("bucketmdtag", ⟨"bucketmdtag", 1, "bmd1"⟩)],
   [("bucketmdtag", "bmd1")]⟩

/-- State after `handlePending` over `st1` and `envC`: `t2` now has the
delivery recorded. -/
def stP : MetaState :=
  ⟨[("t1", [("bucketmdtag", 1)]), ("t2", [("bucketmdtag", 1)]), ("p", [])],
   [("bucketmdtag", ⟨"bucketmdtag", 1, "bmd1"⟩)],
   [("bucketmdtag", "bmd1")]⟩

/-- Trace of `handlePending` over `st1` and `envC`. -/
def trP : List Event :=
  [.bcastE "PUT" (.payloadB [("bucketmdtag", "bmd1"), ("bucketmdtag-action", "handle-pending-msg")])
     3 ["t2"],
   .writeE "t2" "bucketmdtag" 1]

/-- State in which the published `x` artifact was mutated in place after
its clone was recorded. -/
def stCow : MetaState := ⟨[], [("x", ⟨"x", 1, "A-mutated"⟩)], [("x", "A")]⟩

/-- A `smaptag` artifact one version behind the current cluster map
(`smapA` has version 1). -/
def pairSmapStale : RevsPair := ⟨⟨"smaptag", 0, "smapv0"⟩, msgA⟩

/-- A `smaptag` artifact newer than the current cluster map. -/
def pairSmapNew : RevsPair := ⟨⟨"smaptag", 5, "smapv5"⟩, msgA⟩

/-- Trace of a retry-loop result. -/
def LoopRes.traceOf : LoopRes → List Event
  | .early _ _ tr => tr
  | .done _ _ tr => tr

/-- Every pair of `ps` is recorded for `sid` at exactly its version. -/
def deliveredExact (st : MetaState) (sid : String) (ps : List RevsPair) : Prop :=
  ∀ pr ∈ ps, vmLookup st sid pr.revs.tag = some pr.revs.version

/-- Environment in which `t1` refuses the first broadcast but accepts the
round-0 retry, with a stable cluster map and stable primacy. -/
def envRetry : SyncEnv := ⟨smapA, fun _ => .refused, fun _ => smapA, fun _ _ => .ok, smapA⟩

/-- Trace of the refused-then-retried sync of `pairA` over `envRetry`. -/
def trRetry : List Event :=
  [.bcastE "PUT" (.payloadB [("bucketmdtag", "bmd1"), ("bucketmdtag-action", "msgjson")]) 6 ["t1"],
   .sleepE 3,
   .bcastE "PUT" (.payloadB [("bucketmdtag", "bmd1"), ("bucketmdtag-action", "msgjson")]) 7 ["t1"],
   .writeE "t1" "bucketmdtag" 1]

/-- Well-formedness of the registry: map keys agree with the artifacts'
own tags, and keys are unique. -/
def lastWF (st : MetaState) : Prop :=
  (∀ e ∈ st.last, e.1 = e.2.tag) ∧ (st.last.map Prod.fst).Nodup

/-- A write event's value equals the post-state's last sync-ed version of
its tag; other events are unconstrained. -/
def writeOK (st : MetaState) : Event → Prop
  | .writeE _ t w => w = lversion st t
  | _ => True

/-- A write event arises from one of the pairs of `ps`. -/
def eventFromPs (ps : List RevsPair) : Event → Prop
  | .writeE _ t w => ∃ pr ∈ ps, t = pr.revs.tag ∧ w = pr.revs.version
  | _ => True

/-! ## Association-list lemmas -/

theorem alookup_aset_self {α : Type} (l : List (String × α)) (k : String) (v : α) :
    alookup (aset l k v) k = some v := by
  induction l with
  | nil => simp [aset, alookup]
  | cons e rest ih =>
      obtain ⟨k₀, w⟩ := e
      by_cases h0 : k₀ = k
      · rw [aset, if_pos h0, alookup, if_pos rfl]
      · rw [aset, if_neg h0, alookup, if_neg h0]
        exact ih

theorem alookup_aset_ne {α : Type} (l : List (String × α)) (k k' : String) (v : α)
    (h : k' ≠ k) : alookup (aset l k v) k' = alookup l k' := by
  induction l with
  | nil =>
      rw [aset, alookup, alookup, if_neg (show ¬ k = k' from fun hh => h hh.symm), alookup]
  | cons e rest ih =>
      obtain ⟨k₀, w⟩ := e
      by_cases h0 : k₀ = k
      · rw [aset, if_pos h0, alookup, alookup,
          if_neg (show ¬ k = k' from fun hh => h hh.symm),
          if_neg (show ¬ k₀ = k' from fun hh => h (h0.symm.trans hh).symm)]
      · rw [aset, if_neg h0, alookup, alookup]
        by_cases h1 : k₀ = k'
        · rw [if_pos h1, if_pos h1]
        · rw [if_neg h1, if_neg h1]
          exact ih

theorem aset_eq_of_lookup {α : Type} {l : List (String × α)} {k : String} {v : α}
    (h : alookup l k = some v) : aset l k v = l := by
  induction l with
  | nil => simp [alookup] at h
  | cons e rest ih =>
      obtain ⟨k₀, w⟩ := e
      by_cases h0 : k₀ = k
      · rw [alookup, if_pos h0] at h
        have hw : w = v := by exact Option.some.inj h
        rw [aset, if_pos h0, ← h0, hw]
      · rw [alookup, if_neg h0] at h
        rw [aset, if_neg h0, ih h]

theorem alookup_mem {α : Type} {l : List (String × α)} {k : String} {v : α}
    (h : alookup l k = some v) : (k, v) ∈ l := by
  induction l with
  | nil => simp [alookup] at h
  | cons e rest ih =>
      obtain ⟨k₀, w⟩ := e
      by_cases h0 : k₀ = k
      · rw [alookup, if_pos h0] at h
        have hw : w = v := Option.some.inj h
        rw [← h0, ← hw]
        exact List.mem_cons_self _ _
      · rw [alookup, if_neg h0] at h
        exact List.mem_cons_of_mem _ (ih h)

theorem mem_aset {α : Type} {l : List (String × α)} {k : String} {v : α} {e : String × α}
    (h : e ∈ aset l k v) : e = (k, v) ∨ e ∈ l := by
  induction l with
  | nil =>
      rw [aset] at h
      exact Or.inl (List.mem_singleton.1 h)
  | cons e₀ rest ih =>
      obtain ⟨k₀, w⟩ := e₀
      by_cases h0 : k₀ = k
      · rw [aset, if_pos h0] at h
        rcases List.mem_cons.1 h with h | h
        · exact Or.inl h
        · exact Or.inr (List.mem_cons_of_mem _ h)
      · rw [aset, if_neg h0] at h
        rcases List.mem_cons.1 h with h | h
        · exact Or.inr (List.mem_cons.2 (Or.inl h))
        · rcases ih h with h | h
          · exact Or.inl h
          · exact Or.inr (List.mem_cons_of_mem _ h)

theorem mem_keys_aset {α : Type} {l : List (String × α)} {k a : String} {v : α}
    (h : a ∈ (aset l k v).map Prod.fst) : a = k ∨ a ∈ l.map Prod.fst := by
  rcases List.mem_map.1 h with ⟨e, he, hfst⟩
  rcases mem_aset he with h1 | h1
  · left; rw [← hfst, h1]
  · right; exact List.mem_map.2 ⟨e, h1, hfst⟩

theorem nodup_keys_aset {α : Type} {l : List (String × α)} (k : String) (v : α)
    (h : (l.map Prod.fst).Nodup) : ((aset l k v).map Prod.fst).Nodup := by
  induction l with
  | nil => simp [aset]
  | cons e rest ih =>
      obtain ⟨k₀, w⟩ := e
      simp only [List.map_cons, List.nodup_cons] at h
      by_cases h0 : k₀ = k
      · rw [aset, if_pos h0]
        simp only [List.map_cons, List.nodup_cons]
        exact ⟨h0 ▸ h.1, h.2⟩
      · rw [aset, if_neg h0]
        simp only [List.map_cons, List.nodup_cons]
        refine ⟨fun hm => ?_, ih h.2⟩
        rcases mem_keys_aset hm with h1 | h1
        · exact h0 h1
        · exact h.1 h1

theorem alookup_of_mem_nodup {α : Type} {l : List (String × α)} {k : String} {v : α}
    (hn : (l.map Prod.fst).Nodup) (hm : (k, v) ∈ l) : alookup l k = some v := by
  induction l with
  | nil => simp at hm
  | cons e rest ih =>
      obtain ⟨k₀, w⟩ := e
      simp only [List.map_cons, List.nodup_cons] at hn
      rcases List.mem_cons.1 hm with h | h
      · obtain ⟨h1, h2⟩ := Prod.mk.inj h
        rw [alookup, if_pos h1.symm, h2]
      · by_cases h0 : k₀ = k
        · exact absurd (List.mem_map.2 ⟨(k, v), h, h0.symm⟩) hn.1
        · rw [alookup, if_neg h0]
          exact ih hn.2 h

theorem alookup_filter_key {α : Type} (p : String → Bool) (l : List (String × α)) (k : String)
    (h : p k = true) : alookup (l.filter fun e => p e.1) k = alookup l k := by
  induction l with
  | nil => simp [alookup]
  | cons e rest ih =>
      obtain ⟨k₀, w⟩ := e
      by_cases h0 : k₀ = k
      · rw [List.filter_cons, if_pos (by simpa [h0] using h), alookup, if_pos h0,
          alookup, if_pos h0]
      · by_cases hp : p k₀
        · rw [List.filter_cons, if_pos (by simpa using hp), alookup, if_neg h0,
            alookup, if_neg h0]
          exact ih
        · rw [List.filter_cons, if_neg (by simpa using hp), alookup, if_neg h0]
          exact ih

theorem mem_rinsert {l : List String} {q a : String} (h : a ∈ rinsert l q) :
    a = q ∨ a ∈ l := by
  unfold rinsert at h
  by_cases hc : l.contains q
  · rw [if_pos hc] at h
    exact Or.inr h
  · rw [if_neg hc] at h
    rcases List.mem_append.1 h with h | h
    · exact Or.inr h
    · exact Or.inl (List.mem_singleton.1 h)

theorem nodup_rinsert {l : List String} (q : String) (h : l.Nodup) :
    (rinsert l q).Nodup := by
  unfold rinsert
  by_cases hc : l.contains q
  · rwa [if_pos hc]
  · rw [if_neg hc]
    refine List.Nodup.append h (List.nodup_singleton q) ?_
    intro a ha hb
    rw [List.mem_singleton] at hb
    subst hb
    exact absurd (List.elem_eq_true_of_mem ha) (by simpa using hc)

/-! ## C9: `LoadConfig` network-plane selection -/

/-- C9: `LoadConfig` enables the intra-control plane iff the intra-control
IP is non-empty, the intra-control port is non-zero, and the IP or the
port differs from the public one; symmetrically for the intra-data
plane. -/
theorem c9_use_intra_networks (c : NetConf) :
    (useIntraControl c = true ↔
      c.ipv4IntraControl ≠ "" ∧ c.portIntraControl ≠ 0 ∧
        (c.ipv4IntraControl ≠ c.ipv4 ∨ c.portIntraControl ≠ c.port)) ∧
    (useIntraData c = true ↔
      c.ipv4IntraData ≠ "" ∧ c.portIntraData ≠ 0 ∧
        (c.ipv4IntraData ≠ c.ipv4 ∨ c.portIntraData ≠ c.port)) := by
  constructor
  · unfold useIntraControl
    constructor
    · intro h
      by_cases h1 : c.ipv4IntraControl = "" <;>
        by_cases h2 : c.portIntraControl = 0 <;>
          by_cases h3 : c.ipv4 = c.ipv4IntraControl <;>
            by_cases h4 : c.port = c.portIntraControl <;>
              simp_all [bne_iff_ne] <;> tauto
    · intro ⟨h1, h2, h3⟩
      rcases h3 with h3 | h3 <;> simp_all [bne_iff_ne] <;> tauto
  · unfold useIntraData
    constructor
    · intro h
      by_cases h1 : c.ipv4IntraData = "" <;>
        by_cases h2 : c.portIntraData = 0 <;>
          by_cases h3 : c.ipv4 = c.ipv4IntraData <;>
            by_cases h4 : c.port = c.portIntraData <;>
              simp_all [bne_iff_ne] <;> tauto
    · intro ⟨h1, h2, h3⟩
      rcases h3 with h3 | h3 <;> simp_all [bne_iff_ne] <;> tauto

/-! ## C7: non-primary callers are dropped -/

/-- C7: `sync` and `notify` on a node that is not the primary of the
current cluster map drop the request: nothing reaches the work channel,
so no `doSync` run and no broadcast can result from it. -/
theorem c7_nonprimary_drop (selfID : String) (smap : SmapX) (pairs : List RevsPair)
    (msg : Option ActionMsg) (h : smap.isPrimary selfID = false) :
    syncCall selfID smap pairs = .dropped ∧ notifyCall selfID smap msg = .dropped := by
  unfold syncCall notifyCall checkPrimary
  rw [h]
  simp

/-- Witness for C7 at a concrete non-primary node. -/
theorem c7_nonprimary_drop_witness :
    SmapX.isPrimary smapB "p" = false ∧
    syncCall "p" smapB [pairA] = .dropped ∧ notifyCall "p" smapB (some msgA) = .dropped :=
  ⟨rfl, (c7_nonprimary_drop "p" smapB [pairA] (some msgA) rfl).1,
    (c7_nonprimary_drop "p" smapB [pairA] (some msgA) rfl).2⟩

/-! ## C10: empty sync asserts; only `becomeNonPrimary` makes nil requests -/

/-- C10: on the primary, `sync` with an empty pair list fails the
`len(pairs) > 0` assertion instead of acting as a no-op or a notify;
every request `sync` does enqueue is non-nil, while `becomeNonPrimary`'s
request is the nil state-reset one. -/
theorem c10_empty_sync_assert (selfID : String) (smap : SmapX)
    (h : checkPrimary smap selfID = true) :
    syncCall selfID smap [] = .assertFail ∧
    (∀ pairs req, syncCall selfID smap pairs = .enqueued req → req.isNil = false) ∧
    becomeNonPrimaryReq.isNil = true := by
  refine ⟨by simp [syncCall, h], ?_, rfl⟩
  intro pairs req he
  unfold syncCall at he
  rw [h] at he
  simp only [not_true, if_false] at he
  by_cases hp : pairs.length = 0
  · rw [if_pos hp] at he
    exact absurd he (by simp)
  · rw [if_neg hp] at he
    have : req = ⟨pairs, none⟩ := by
      cases he' : syncCall selfID smap pairs <;> simp_all
    subst this
    simp only [RevsReq.isNil, Option.isNone_none, Bool.and_true]
    cases pairs with
    | nil => exact absurd rfl hp
    | cons a l => rfl

/-- Witness for C10 on a concrete primary. -/
theorem c10_empty_sync_assert_witness :
    checkPrimary smapA "p" = true ∧
    syncCall "p" smapA [] = .assertFail ∧ becomeNonPrimaryReq.isNil = true :=
  ⟨rfl, (c10_empty_sync_assert "p" smapA rfl).1, (c10_empty_sync_assert "p" smapA rfl).2.2⟩

/-! ## C4: CoW audit precedes any broadcast -/

/-- C4: whenever some already published tag re-marshals to something
other than its recorded clone, `doSync` hits the fatal CoW assertion
with an empty trace: no broadcast (and no other effect) precedes the
audit, whatever the request. -/
theorem c4_cow_audit (selfID : String) (cfg : Config) (st : MetaState) (env : SyncEnv)
    (pairs : List RevsPair) (msgInt : Option ActionMsg) (tag : String) (r : Revs) (c : String)
    (hl : alookup st.last tag = some r) (hc : alookup st.lastclone tag = some c)
    (hne : r.marshalled ≠ c) :
    doSync selfID cfg st env pairs msgInt = .fatal [] := by
  have hcow : cowViolation st = true := by
    unfold cowViolation
    refine List.any_eq_true.2 ⟨(tag, r), alookup_mem hl, ?_⟩
    simp [hc, bne_iff_ne, hne]
  unfold doSync
  simp [hcow]

/-- Witness for C4: a concrete mutated-in-place state aborts with no
trace. -/
theorem c4_cow_audit_witness :
    alookup stCow.last "x" = some ⟨"x", 1, "A-mutated"⟩ ∧
    alookup stCow.lastclone "x" = some "A" ∧
    doSync "p" cfg0 stCow envOK [pairA] none = .fatal [] :=
  ⟨rfl, rfl,
    c4_cow_audit "p" cfg0 stCow envOK [pairA] none "x" ⟨"x", 1, "A-mutated"⟩ "A"
      rfl rfl (by decide)⟩

/-! ## C3: smap-tag filtering -/

/-- C3 (code bug): an `smap`-tagged artifact newer than the current
cluster map is fatal, as the claim says; but a stale one is NOT
substituted: despite the "using newer Smap to broadcast" log line, the
payload that goes on the wire still carries the stale serialization
(`smapv0`, version 0) rather than the current cluster map (version 1),
and the stale artifact is recorded as last sync-ed. -/
theorem c3_stale_smap_behavior :
    doSync "p" cfg0 initMS envOK [pairSmapNew] none = .fatal [] ∧
    (firstPayload (doSync "p" cfg0 initMS envOK [pairSmapStale] none).traceOf).bind
        (fun kvs => alookup kvs smaptag) = some "smapv0" ∧
    lversion ((doSync "p" cfg0 initMS envOK [pairSmapStale] none).stateOf initMS) smaptag = 0 ∧
    smapA.sversion = 1 := by
  refine ⟨by decide, by decide, by decide, rfl⟩

/-! ## C1 counterexample: the becomeNonPrimary bail returns zero -/

/-- C1 fails as stated: with `t1` refusing the broadcast and primacy
lost before the first retry round, `doSync` takes the `becomeNonPrimary`
bail and returns 0 failures, yet peer `t1` of the cluster map has no
recorded delivered version at all for the synced pair. -/
theorem c1_counterexample :
    (doSync "p" cfg0 initMS envRefuse [pairA] none).cntOf = 0 ∧
    (doSync "p" cfg0 initMS envRefuse [pairA] none).earlyOf = true ∧
    "t1" ∈ smapIDs envRefuse.smap0 ∧
    vermapAtLeast ((doSync "p" cfg0 initMS envRefuse [pairA] none).stateOf initMS)
      "t1" "bucketmdtag" 1 = false := by
  refine ⟨by decide, by decide, by decide, by decide⟩

/-! ## C2 counterexample: duplicate tags in one sync -/

/-- C2 fails as stated: a single `doSync` whose pair list carries the
same tag twice (versions 7 then 5) performs, for peer `t1`, the write
sequence `[7, 5]` on `vermap[tagA]` - a later recorded version smaller
than an earlier one. -/
theorem c2_counterexample :
    Reach anyAct "p" cfg0 stC2 trC2 ∧
    writesAt trC2 "t1" "tagA" = [7, 5] ∧
    ¬ List.Pairwise (fun a b => a ≤ b) (writesAt trC2 "t1" "tagA") := by
  refine ⟨?_, by decide, by decide⟩
  have h : applyAct "p" cfg0 initMS (.syncA envOK [pair7, pair5]) = some (stC2, trC2) := by
    decide
  exact Reach.step (Reach.init) True.intro h

/-! ## C8 counterexample: a duplicate sync still broadcasts -/

/-- C8 fails as stated: after a first successful sync of `pairA` (final
state `st1`), re-syncing the very same pair with an unchanged cluster
map is NOT dropped: `countNewMembers` counts the primary itself (which
the broadcaster never delivers to), so the duplicate is re-broadcast -
one PUT goes on the wire - although the final state is unchanged and
zero failures are returned. -/
theorem c8_counterexample :
    doSync "p" cfg0 initMS envOK [pairA] none = .ok st1 0 tr1 false [] ∧
    doSync "p" cfg0 st1 envOK [pairA] none = .ok st1 0 tr1 false [] ∧
    countNewMembers st1 envOK.smap0 = 1 ∧
    bcastCount tr1 = 1 := by
  refine ⟨by decide, by decide, by decide, by decide⟩

/-! ## Trace-count lemmas and retry-loop structure (towards C5) -/

theorem sleepCount_append (t1 t2 : List Event) :
    sleepCount (t1 ++ t2) = sleepCount t1 + sleepCount t2 := by
  simp [sleepCount, List.filter_append]

theorem bcastCount_append (t1 t2 : List Event) :
    bcastCount (t1 ++ t2) = bcastCount t1 + bcastCount t2 := by
  simp [bcastCount, List.filter_append]

theorem sleepCount_writesOf (q : String) (ps : List RevsPair) :
    sleepCount (writesOf q ps) = 0 := by
  induction ps with
  | nil => rfl
  | cons pr rest ih => simp [writesOf, sleepCount, List.filter_cons, ih]

theorem bcastCount_writesOf (q : String) (ps : List RevsPair) :
    bcastCount (writesOf q ps) = 0 := by
  induction ps with
  | nil => rfl
  | cons pr rest ih => simp [writesOf, bcastCount, List.filter_cons, ih]

theorem foldl_preserve {β γ : Type} (P : β → Prop) (f : β → γ → β) :
    ∀ (l : List γ) (acc : β), P acc → (∀ b q, q ∈ l → P b → P (f b q)) →
      P (l.foldl f acc) := by
  intro l
  induction l with
  | nil => intro acc h _; simpa using h
  | cons x xs ih =>
      intro acc h hstep
      rw [List.foldl_cons]
      exact ih (f acc x) (hstep acc x (List.mem_cons_self _ _) h)
        (fun b q hq hb => hstep b q (List.mem_cons_of_mem _ hq) hb)

theorem classify_trace_counts (st : MetaState) (out : String → Outcome)
    (nodes : List String) (ps : List RevsPair) (ntid : String) :
    sleepCount (classify st out nodes ps ntid).2.2.2 = 0 ∧
    bcastCount (classify st out nodes ps ntid).2.2.2 = 0 := by
  unfold classify
  refine foldl_preserve
    (fun acc : MetaState × List String × Nat × List Event =>
      sleepCount acc.2.2.2 = 0 ∧ bcastCount acc.2.2.2 = 0)
    (classifyStep out ps ntid) nodes (st, [], 0, []) ⟨rfl, rfl⟩ ?_
  intro b q _ hb
  unfold classifyStep
  cases hoq : out q with
  | ok =>
      by_cases hps : ps.isEmpty <;>
        simp [hps, sleepCount_append, bcastCount_append, sleepCount_writesOf,
          bcastCount_writesOf, hb.1, hb.2]
  | refused => simpa using hb
  | errOther => by_cases h : q = ntid <;> simp [h, hb.1, hb.2]

theorem hrf_trace_counts (st : MetaState) (refused resNodes : List String)
    (out : String → Outcome) (ps : List RevsPair) :
    sleepCount (handleRefusedFold st refused resNodes out ps).2.2 = 0 ∧
    bcastCount (handleRefusedFold st refused resNodes out ps).2.2 = 0 := by
  unfold handleRefusedFold
  refine foldl_preserve
    (fun acc : MetaState × List String × List Event =>
      sleepCount acc.2.2 = 0 ∧ bcastCount acc.2.2 = 0)
    (hrfStep out ps) resNodes (st, refused, []) ⟨rfl, rfl⟩ ?_
  intro b q _ hb
  unfold hrfStep
  cases hoq : out q with
  | ok =>
      simp [sleepCount_append, bcastCount_append, sleepCount_writesOf,
        bcastCount_writesOf, hb.1, hb.2]
  | refused => simpa using hb
  | errOther => simpa using hb

theorem retryLoop_empty (selfID : String) (cfg : Config) (env : SyncEnv) (method : String)
    (body : BcastBody) (ps : List RevsPair) (fuel round : Nat) (st : MetaState)
    (tr : List Event) :
    retryLoop selfID cfg env method body ps fuel round st [] tr = .done st [] tr := by
  cases fuel <;> rfl

theorem retryLoop_bail (selfID : String) (cfg : Config) (env : SyncEnv) (method : String)
    (body : BcastBody) (ps : List RevsPair) (fuel round : Nat) (st : MetaState)
    (ref : List String) (tr : List Event) (h : ref ≠ [])
    (hp : (env.smapR round).isPrimary selfID = false) :
    retryLoop selfID cfg env method body ps (fuel + 1) round st ref tr =
      .early st ref (tr ++ [.sleepE cfg.cplaneOperation]) := by
  have he : ref.isEmpty = false := by
    cases ref with
    | nil => exact absurd rfl h
    | cons a l => rfl
  simp [retryLoop, he, hp]

theorem retryLoop_round (selfID : String) (cfg : Config) (env : SyncEnv) (method : String)
    (body : BcastBody) (ps : List RevsPair) (fuel round : Nat) (st : MetaState)
    (ref : List String) (tr : List Event) (h : ref ≠ [])
    (hp : (env.smapR round).isPrimary selfID = true) :
    retryLoop selfID cfg env method body ps (fuel + 1) round st ref tr =
      retryLoop selfID cfg env method body ps fuel (round + 1)
        (handleRefusedFold st ref (ref.filter (fun q => q ≠ selfID)) (env.outR round) ps).1
        (handleRefusedFold st ref (ref.filter (fun q => q ≠ selfID)) (env.outR round) ps).2.1
        ((tr ++ [.sleepE cfg.cplaneOperation]) ++
          .bcastE method body cfg.maxKeepalive (ref.filter (fun q => q ≠ selfID)) ::
            (handleRefusedFold st ref (ref.filter (fun q => q ≠ selfID))
              (env.outR round) ps).2.2) := by
  have he : ref.isEmpty = false := by
    cases ref with
    | nil => exact absurd rfl h
    | cons a l => rfl
  simp [retryLoop, he, hp]

theorem retryLoop_counts (selfID : String) (cfg : Config) (env : SyncEnv) (method : String)
    (body : BcastBody) (ps : List RevsPair) :
    ∀ (fuel round : Nat) (st : MetaState) (ref : List String) (tr : List Event),
      sleepCount (retryLoop selfID cfg env method body ps fuel round st ref tr).traceOf ≤
          sleepCount tr + fuel ∧
      bcastCount (retryLoop selfID cfg env method body ps fuel round st ref tr).traceOf ≤
          bcastCount tr + fuel := by
  intro fuel
  induction fuel with
  | zero =>
      intro round st ref tr
      constructor <;> simp [retryLoop, LoopRes.traceOf]
  | succ n ih =>
      intro round st ref tr
      by_cases he : ref = []
      · subst he
        rw [retryLoop_empty]
        constructor <;> simp [LoopRes.traceOf]
      · by_cases hp : (env.smapR round).isPrimary selfID
        · rw [retryLoop_round selfID cfg env method body ps n round st ref tr he hp]
          have hws := hrf_trace_counts st ref (ref.filter (fun q => q ≠ selfID))
            (env.outR round) ps
          have := ih (round + 1)
            (handleRefusedFold st ref (ref.filter (fun q => q ≠ selfID)) (env.outR round) ps).1
            (handleRefusedFold st ref (ref.filter (fun q => q ≠ selfID)) (env.outR round) ps).2.1
            ((tr ++ [.sleepE cfg.cplaneOperation]) ++
              .bcastE method body cfg.maxKeepalive (ref.filter (fun q => q ≠ selfID)) ::
                (handleRefusedFold st ref (ref.filter (fun q => q ≠ selfID))
                  (env.outR round) ps).2.2)
          have harith1 :
              sleepCount ((tr ++ [.sleepE cfg.cplaneOperation]) ++
                .bcastE method body cfg.maxKeepalive (ref.filter (fun q => q ≠ selfID)) ::
                  (handleRefusedFold st ref (ref.filter (fun q => q ≠ selfID))
                    (env.outR round) ps).2.2) = sleepCount tr + 1 := by
            rw [sleepCount_append, sleepCount_append]
            have h1 : sleepCount [Event.sleepE cfg.cplaneOperation] = 1 := rfl
            have h2 : sleepCount
                (Event.bcastE method body cfg.maxKeepalive (ref.filter (fun q => q ≠ selfID)) ::
                  (handleRefusedFold st ref (ref.filter (fun q => q ≠ selfID))
                    (env.outR round) ps).2.2) =
                sleepCount (handleRefusedFold st ref (ref.filter (fun q => q ≠ selfID))
                    (env.outR round) ps).2.2 := by
              simp [sleepCount, List.filter_cons]
            rw [h1, h2, hws.1]
          have harith2 :
              bcastCount ((tr ++ [.sleepE cfg.cplaneOperation]) ++
                .bcastE method body cfg.maxKeepalive (ref.filter (fun q => q ≠ selfID)) ::
                  (handleRefusedFold st ref (ref.filter (fun q => q ≠ selfID))
                    (env.outR round) ps).2.2) = bcastCount tr + 1 := by
            rw [bcastCount_append, bcastCount_append]
            have h1 : bcastCount [Event.sleepE cfg.cplaneOperation] = 0 := rfl
            have h2 : bcastCount
                (Event.bcastE method body cfg.maxKeepalive (ref.filter (fun q => q ≠ selfID)) ::
                  (handleRefusedFold st ref (ref.filter (fun q => q ≠ selfID))
                    (env.outR round) ps).2.2) =
                bcastCount (handleRefusedFold st ref (ref.filter (fun q => q ≠ selfID))
                    (env.outR round) ps).2.2 + 1 := by
              simp [bcastCount, List.filter_cons]
            rw [h1, h2, hws.2]
          rw [harith1] at this
          rw [harith2] at this
          constructor
          · calc _ ≤ sleepCount tr + 1 + n := this.1
              _ = sleepCount tr + (n + 1) := by omega
          · calc _ ≤ bcastCount tr + 1 + n := this.2
              _ = bcastCount tr + (n + 1) := by omega
        · have hp' : (env.smapR round).isPrimary selfID = false := by
            simpa using hp
          rw [retryLoop_bail selfID cfg env method body ps n round st ref tr he hp']
          constructor
          · simp [LoopRes.traceOf, sleepCount_append]
            have : sleepCount [Event.sleepE cfg.cplaneOperation] = 1 := rfl
            omega
          · simp [LoopRes.traceOf, bcastCount_append]
            have : bcastCount [Event.sleepE cfg.cplaneOperation] = 0 := rfl
            omega

theorem hrf_go_subset (out : String → Outcome) (ps : List RevsPair) :
    ∀ (l : List String) (acc : MetaState × List String × List Event),
      (l.foldl (hrfStep out ps) acc).2.1 ⊆ acc.2.1 := by
  intro l
  induction l with
  | nil => intro acc a h; exact h
  | cons x xs ih =>
      intro acc
      rw [List.foldl_cons]
      refine (ih (hrfStep out ps acc x)).trans ?_
      unfold hrfStep
      cases out x with
      | ok =>
          intro a h
          exact (List.mem_filter.1 h).1
      | refused => exact fun a h => h
      | errOther => exact fun a h => h

theorem hrf_go_removes (out : String → Outcome) (ps : List RevsPair) :
    ∀ (l : List String) (acc : MetaState × List String × List Event) (q : String),
      q ∈ l → out q = .ok → q ∉ (l.foldl (hrfStep out ps) acc).2.1 := by
  intro l
  induction l with
  | nil => intro acc q hq; simp at hq
  | cons x xs ih =>
      intro acc q hq hok
      rw [List.foldl_cons]
      rcases List.mem_cons.1 hq with h | h
      · subst h
        intro hmem
        have hsub := hrf_go_subset out ps xs (hrfStep out ps acc q)
        have : q ∈ (hrfStep out ps acc q).2.1 := hsub hmem
        unfold hrfStep at this
        rw [hok] at this
        exact absurd (List.mem_filter.1 this).2 (by simp)
      · exact ih (hrfStep out ps acc x) q h hok

/-- Success removes the peer from the refused set of `handleRefused`. -/
theorem hrf_removes (st : MetaState) (refused resNodes : List String)
    (out : String → Outcome) (ps : List RevsPair) (q : String)
    (hq : q ∈ resNodes) (hok : out q = .ok) :
    q ∉ (handleRefusedFold st refused resNodes out ps).2.1 :=
  hrf_go_removes out ps resNodes (st, refused, []) q hq hok

theorem finishSync_rem_le (smapF : SmapX) (cnt0 : Nat) (lr : LoopRes)
    (st' : MetaState) (cnt : Nat) (tr : List Event) (rem : List String)
    (h : finishSync smapF cnt0 lr = .ok st' cnt tr false rem) :
    rem.length ≤ cnt := by
  cases lr with
  | early st2 ref2 tr2 => simp [finishSync] at h
  | done st2 ref2 tr2 =>
      simp only [finishSync, SyncRes.ok.injEq] at h
      obtain ⟨-, h2, -, -, h5⟩ := h
      subst h5
      omega

theorem afterBcast_rem_le (selfID : String) (cfg : Config) (env : SyncEnv) (st : MetaState)
    (method : String) (body : BcastBody) (ps : List RevsPair) (ntid : String)
    (st' : MetaState) (cnt : Nat) (tr : List Event) (rem : List String)
    (h : afterBcast selfID cfg env st method body ps ntid = .ok st' cnt tr false rem) :
    rem.length ≤ cnt := by
  unfold afterBcast at h
  exact finishSync_rem_le _ _ _ _ _ _ _ h

theorem finishSync_counts (smapF : SmapX) (cnt0 : Nat) (lr : LoopRes) :
    sleepCount (finishSync smapF cnt0 lr).traceOf = sleepCount lr.traceOf ∧
    bcastCount (finishSync smapF cnt0 lr).traceOf = bcastCount lr.traceOf := by
  cases lr <;> simp [finishSync, SyncRes.traceOf, LoopRes.traceOf]

theorem afterBcast_counts (selfID : String) (cfg : Config) (env : SyncEnv) (st : MetaState)
    (method : String) (body : BcastBody) (ps : List RevsPair) (ntid : String) :
    sleepCount (afterBcast selfID cfg env st method body ps ntid).traceOf ≤ 10 ∧
    bcastCount (afterBcast selfID cfg env st method body ps ntid).traceOf ≤ 11 := by
  unfold afterBcast
  have hcl := classify_trace_counts st env.out0 (bcastNodes env.smap0 selfID) ps ntid
  have hfin := finishSync_counts env.smapF
    (classify st env.out0 (bcastNodes env.smap0 selfID) ps ntid).2.2.1
    (retryLoop selfID cfg env method body ps 10 0
      (classify st env.out0 (bcastNodes env.smap0 selfID) ps ntid).1
      (classify st env.out0 (bcastNodes env.smap0 selfID) ps ntid).2.1
      (.bcastE method body (2 * cfg.cplaneOperation) (bcastNodes env.smap0 selfID) ::
        (classify st env.out0 (bcastNodes env.smap0 selfID) ps ntid).2.2.2))
  have hloop := retryLoop_counts selfID cfg env method body ps 10 0
    (classify st env.out0 (bcastNodes env.smap0 selfID) ps ntid).1
    (classify st env.out0 (bcastNodes env.smap0 selfID) ps ntid).2.1
    (.bcastE method body (2 * cfg.cplaneOperation) (bcastNodes env.smap0 selfID) ::
      (classify st env.out0 (bcastNodes env.smap0 selfID) ps ntid).2.2.2)
  have htr0s : sleepCount
      (Event.bcastE method body (2 * cfg.cplaneOperation) (bcastNodes env.smap0 selfID) ::
        (classify st env.out0 (bcastNodes env.smap0 selfID) ps ntid).2.2.2) = 0 := by
    simp [sleepCount, List.filter_cons]
    have := hcl.1
    simpa [sleepCount] using this
  have htr0b : bcastCount
      (Event.bcastE method body (2 * cfg.cplaneOperation) (bcastNodes env.smap0 selfID) ::
        (classify st env.out0 (bcastNodes env.smap0 selfID) ps ntid).2.2.2) = 1 := by
    simp [bcastCount, List.filter_cons]
    have := hcl.2
    simpa [bcastCount] using this
  rw [htr0s] at hloop
  rw [htr0b] at hloop
  constructor
  · rw [hfin.1]
    exact hloop.1
  · rw [hfin.2]
    calc _ ≤ 1 + 10 := hloop.2
      _ = 11 := rfl

theorem doSync_counts (selfID : String) (cfg : Config) (st : MetaState) (env : SyncEnv)
    (pairs : List RevsPair) (msgInt : Option ActionMsg) :
    sleepCount (doSync selfID cfg st env pairs msgInt).traceOf ≤ 10 ∧
    bcastCount (doSync selfID cfg st env pairs msgInt).traceOf ≤ 11 := by
  unfold doSync
  dsimp only
  split
  · simp [SyncRes.traceOf, sleepCount, bcastCount]
  · split
    · exact afterBcast_counts selfID cfg env st "POST" _ [] ""
    · split
      · simp [SyncRes.traceOf, sleepCount, bcastCount]
      · split
        · simp [SyncRes.traceOf, sleepCount, bcastCount]
        · split
          · simp [SyncRes.traceOf, sleepCount, bcastCount]
          · exact afterBcast_counts selfID cfg env _ "PUT" _ _ _

theorem doSync_rem_le (selfID : String) (cfg : Config) (st : MetaState) (env : SyncEnv)
    (pairs : List RevsPair) (msgInt : Option ActionMsg) (st' : MetaState) (cnt : Nat)
    (tr : List Event) (rem : List String)
    (h : doSync selfID cfg st env pairs msgInt = .ok st' cnt tr false rem) :
    rem.length ≤ cnt := by
  unfold doSync at h
  dsimp only at h
  split at h
  · simp at h
  · split at h
    · exact afterBcast_rem_le _ _ _ _ _ _ _ _ _ _ _ _ h
    · split at h
      · simp at h
      · split at h
        · simp at h
        · split at h
          · simp only [SyncRes.ok.injEq] at h
            obtain ⟨-, h2, -, -, h5⟩ := h
            subst h5
            rw [← h2]
            simp
          · exact afterBcast_rem_le _ _ _ _ _ _ _ _ _ _ _ _ h

/-! ## C5: the refused-retry phase -/

/-- C5: the refused-retry phase of `doSync` runs at most 10 rounds (at
most 10 sleeps and 11 broadcasts in any trace); an empty refused set
ends the loop immediately with no further effect; a round on which the
node is no longer primary bails out via `becomeNonPrimary` right after
its sleep; a round on which it is still primary sleeps
`cplane-operation`, then re-broadcasts exactly to the refused set (self
excluded) with timeout `max-keepalive` and continues with the
`handleRefused` result; peers whose retry succeeds leave the refused
set; and every peer still refused at the end is added to the failure
count `doSync` returns. -/
theorem c5_refused_retry (selfID : String) (cfg : Config) (st : MetaState) (env : SyncEnv)
    (pairs : List RevsPair) (msgInt : Option ActionMsg) :
    (sleepCount (doSync selfID cfg st env pairs msgInt).traceOf ≤ 10 ∧
      bcastCount (doSync selfID cfg st env pairs msgInt).traceOf ≤ 11) ∧
    (∀ (method : String) (body : BcastBody) (ps : List RevsPair) (fuel round : Nat)
        (st0 : MetaState) (tr0 : List Event),
      retryLoop selfID cfg env method body ps fuel round st0 [] tr0 = .done st0 [] tr0) ∧
    (∀ (method : String) (body : BcastBody) (ps : List RevsPair) (fuel round : Nat)
        (st0 : MetaState) (ref : List String) (tr0 : List Event), ref ≠ [] →
      (env.smapR round).isPrimary selfID = false →
      retryLoop selfID cfg env method body ps (fuel + 1) round st0 ref tr0 =
        .early st0 ref (tr0 ++ [.sleepE cfg.cplaneOperation])) ∧
    (∀ (method : String) (body : BcastBody) (ps : List RevsPair) (fuel round : Nat)
        (st0 : MetaState) (ref : List String) (tr0 : List Event), ref ≠ [] →
      (env.smapR round).isPrimary selfID = true →
      retryLoop selfID cfg env method body ps (fuel + 1) round st0 ref tr0 =
        retryLoop selfID cfg env method body ps fuel (round + 1)
          (handleRefusedFold st0 ref (ref.filter (fun q => q ≠ selfID)) (env.outR round) ps).1
          (handleRefusedFold st0 ref (ref.filter (fun q => q ≠ selfID)) (env.outR round) ps).2.1
          ((tr0 ++ [.sleepE cfg.cplaneOperation]) ++
            .bcastE method body cfg.maxKeepalive (ref.filter (fun q => q ≠ selfID)) ::
              (handleRefusedFold st0 ref (ref.filter (fun q => q ≠ selfID))
                (env.outR round) ps).2.2)) ∧
    (∀ (st0 : MetaState) (ref resNodes : List String) (out : String → Outcome)
        (ps : List RevsPair) (q : String), q ∈ resNodes → out q = .ok →
      q ∉ (handleRefusedFold st0 ref resNodes out ps).2.1) ∧
    (∀ (st' : MetaState) (cnt : Nat) (tr : List Event) (rem : List String),
      doSync selfID cfg st env pairs msgInt = .ok st' cnt tr false rem →
      rem.length ≤ cnt) :=
  ⟨doSync_counts selfID cfg st env pairs msgInt,
   fun method body ps fuel round st0 tr0 =>
     retryLoop_empty selfID cfg env method body ps fuel round st0 tr0,
   fun method body ps fuel round st0 ref tr0 h hp =>
     retryLoop_bail selfID cfg env method body ps fuel round st0 ref tr0 h hp,
   fun method body ps fuel round st0 ref tr0 h hp =>
     retryLoop_round selfID cfg env method body ps fuel round st0 ref tr0 h hp,
   fun st0 ref resNodes out ps q hq hok => hrf_removes st0 ref resNodes out ps q hq hok,
   fun st' cnt tr rem h => doSync_rem_le selfID cfg st env pairs msgInt st' cnt tr rem h⟩

/-- Witness for C5 on a concrete run: the all-successful sync of `pairA`
satisfies the trace bounds, and its (empty) remaining-refused set is
counted into the returned failure count 0. -/
theorem c5_refused_retry_witness :
    (sleepCount (doSync "p" cfg0 initMS envOK [pairA] none).traceOf ≤ 10 ∧
      bcastCount (doSync "p" cfg0 initMS envOK [pairA] none).traceOf ≤ 11) ∧
    ([] : List String).length ≤ 0 :=
  ⟨(c5_refused_retry "p" cfg0 initMS envOK [pairA] none).1,
   (c5_refused_retry "p" cfg0 initMS envOK [pairA] none).2.2.2.2.2 st1 0 tr1 []
     (by decide)⟩

/-! ## Delivery-state lemmas -/

theorem vermapSet_lookup_notmem (ps : List RevsPair) (t : String)
    (h : t ∉ ps.map fun pr => pr.revs.tag) :
    ∀ vm, alookup (vermapSet vm ps) t = alookup vm t := by
  induction ps with
  | nil => intro vm; rfl
  | cons pr rest ih =>
      intro vm
      simp only [List.map_cons, List.mem_cons, not_or] at h
      unfold vermapSet
      rw [List.foldl_cons]
      have := ih (fun hm => h.2 hm) (aset vm pr.revs.tag pr.revs.version)
      unfold vermapSet at this
      rw [this, alookup_aset_ne _ _ _ _ h.1]

theorem vermapSet_lookup (ps : List RevsPair)
    (hn : (ps.map fun pr => pr.revs.tag).Nodup) :
    ∀ vm, ∀ pr ∈ ps, alookup (vermapSet vm ps) pr.revs.tag = some pr.revs.version := by
  induction ps with
  | nil => intro vm pr hpr; simp at hpr
  | cons pr0 rest ih =>
      intro vm pr hpr
      simp only [List.map_cons, List.nodup_cons] at hn
      rcases List.mem_cons.1 hpr with h | h
      · subst h
        unfold vermapSet
        rw [List.foldl_cons]
        have := vermapSet_lookup_notmem rest pr.revs.tag hn.1
          (aset vm pr.revs.tag pr.revs.version)
        unfold vermapSet at this
        rw [this, alookup_aset_self]
      · unfold vermapSet
        rw [List.foldl_cons]
        exact ih hn.2 (aset vm pr0.revs.tag pr0.revs.version) pr h

/-- `syncDone` records exactly the versions of its pairs for its daemon. -/
theorem syncDone_self (st : MetaState) (sid : String) (ps : List RevsPair)
    (hn : (ps.map fun pr => pr.revs.tag).Nodup) :
    deliveredExact (syncDone st sid ps) sid ps := by
  intro pr hpr
  unfold syncDone vmLookup
  dsimp only
  rw [alookup_aset_self]
  simp only [Option.some_bind]
  exact vermapSet_lookup ps hn _ pr hpr

/-- `syncDone` leaves other daemons' entries untouched. -/
theorem syncDone_other (st : MetaState) (sid q : String) (ps : List RevsPair)
    (hne : q ≠ sid) : ∀ t, vmLookup (syncDone st sid ps) q t = vmLookup st q t := by
  intro t
  unfold syncDone vmLookup
  dsimp only
  rw [alookup_aset_ne _ _ _ _ hne]

theorem deliveredExact_syncDone_other {st : MetaState} {q : String} {ps' : List RevsPair}
    (sid : String) (ps : List RevsPair) (hne : q ≠ sid)
    (h : deliveredExact st q ps') : deliveredExact (syncDone st sid ps) q ps' := by
  intro pr hpr
  rw [syncDone_other st sid q ps hne]
  exact h pr hpr

/-- `syncDone` leaves `last` and `lastclone` untouched. -/
theorem syncDone_last (st : MetaState) (sid : String) (ps : List RevsPair) :
    (syncDone st sid ps).last = st.last ∧ (syncDone st sid ps).lastclone = st.lastclone :=
  ⟨rfl, rfl⟩

theorem mem_rinsert_self (l : List String) (q : String) : q ∈ rinsert l q := by
  unfold rinsert
  by_cases hc : l.contains q
  · rw [if_pos hc]
    exact List.mem_of_elem_eq_true hc
  · rw [if_neg hc]
    exact List.mem_append.2 (Or.inr (List.mem_singleton.2 rfl))

theorem mem_rinsert_of_mem {l : List String} {a : String} (q : String) (h : a ∈ l) :
    a ∈ rinsert l q := by
  unfold rinsert
  by_cases hc : l.contains q
  · rwa [if_pos hc]
  · rw [if_neg hc]
    exact List.mem_append.2 (Or.inl h)

theorem hrf_go_nodup (out : String → Outcome) (ps : List RevsPair) :
    ∀ (l : List String) (acc : MetaState × List String × List Event),
      acc.2.1.Nodup → (l.foldl (hrfStep out ps) acc).2.1.Nodup := by
  intro l acc h
  refine foldl_preserve (fun b : MetaState × List String × List Event => b.2.1.Nodup)
    (hrfStep out ps) l acc h ?_
  intro b q _ hb
  unfold hrfStep
  cases out q with
  | ok => exact List.Nodup.filter _ hb
  | refused => exact hb
  | errOther => exact hb

theorem classify_go_nodup (out : String → Outcome) (ps : List RevsPair) (ntid : String) :
    ∀ (nodes : List String) (acc : MetaState × List String × Nat × List Event),
      acc.2.1.Nodup → (nodes.foldl (classifyStep out ps ntid) acc).2.1.Nodup := by
  intro nodes acc h
  refine foldl_preserve (fun b : MetaState × List String × Nat × List Event => b.2.1.Nodup)
    (classifyStep out ps ntid) nodes acc h ?_
  intro b q _ hb
  unfold classifyStep
  cases out q with
  | ok => by_cases hps : ps.isEmpty <;> simp [hps, hb]
  | refused => exact nodup_rinsert q hb
  | errOther => by_cases hq : q = ntid <;> simp [hq, hb, nodup_rinsert]

theorem hrf_go_main (out : String → Outcome) (ps : List RevsPair)
    (hn : (ps.map fun pr => pr.revs.tag).Nodup) :
    ∀ (l : List String) (acc : MetaState × List String × List Event),
      l ⊆ acc.2.1 → l.Nodup →
      ∀ q, q ∉ (l.foldl (hrfStep out ps) acc).2.1 →
        (q ∉ acc.2.1 → deliveredExact acc.1 q ps) →
        deliveredExact (l.foldl (hrfStep out ps) acc).1 q ps := by
  intro l
  induction l with
  | nil =>
      intro acc _ _ q hq hyp
      exact hyp hq
  | cons x xs ih =>
      intro acc hsub hnd q hq hyp
      rw [List.foldl_cons] at hq ⊢
      simp only [List.nodup_cons] at hnd
      have hxacc : x ∈ acc.2.1 := hsub (List.mem_cons_self _ _)
      have hsub' : xs ⊆ (hrfStep out ps acc x).2.1 := by
        intro y hy
        unfold hrfStep
        cases hox : out x with
        | ok =>
            refine List.mem_filter.2 ⟨hsub (List.mem_cons_of_mem _ hy), ?_⟩
            have : y ≠ x := fun he => hnd.1 (he ▸ hy)
            simp [this]
        | refused => exact hsub (List.mem_cons_of_mem _ hy)
        | errOther => exact hsub (List.mem_cons_of_mem _ hy)
      refine ih (hrfStep out ps acc x) hsub' hnd.2 q hq ?_
      intro hq'
      unfold hrfStep at hq' ⊢
      cases hox : out x with
      | ok =>
          rw [hox] at hq'
          dsimp only at hq' ⊢
          by_cases hqx : q = x
          · subst hqx
            exact syncDone_self acc.1 q ps hn
          · have hq'' : q ∉ acc.2.1 := by
              intro hmem
              exact hq' (List.mem_filter.2 ⟨hmem, by simp [hqx]⟩)
            exact deliveredExact_syncDone_other x ps hqx (hyp hq'')
      | refused =>
          rw [hox] at hq'
          dsimp only at hq' ⊢
          exact hyp hq'
      | errOther =>
          rw [hox] at hq'
          dsimp only at hq' ⊢
          exact hyp hq'

theorem classify_go_main (out : String → Outcome) (ps : List RevsPair) (ntid : String)
    (hn : (ps.map fun pr => pr.revs.tag).Nodup) :
    ∀ (nodes : List String) (acc : MetaState × List String × Nat × List Event),
      nodes.Nodup →
      acc.2.2.1 ≤ (nodes.foldl (classifyStep out ps ntid) acc).2.2.1 ∧
      (∀ q, q ∈ acc.2.1 → q ∈ (nodes.foldl (classifyStep out ps ntid) acc).2.1) ∧
      (∀ q, q ∉ nodes → deliveredExact acc.1 q ps →
        deliveredExact (nodes.foldl (classifyStep out ps ntid) acc).1 q ps) ∧
      ((nodes.foldl (classifyStep out ps ntid) acc).2.2.1 = acc.2.2.1 →
        ∀ q ∈ nodes, q ∉ (nodes.foldl (classifyStep out ps ntid) acc).2.1 →
          deliveredExact (nodes.foldl (classifyStep out ps ntid) acc).1 q ps) := by
  intro nodes
  induction nodes with
  | nil =>
      intro acc _
      refine ⟨le_refl _, fun q h => h, fun q _ h => h, ?_⟩
      intro _ q hq
      simp at hq
  | cons x xs ih =>
      intro acc hnd
      simp only [List.nodup_cons] at hnd
      rw [List.foldl_cons]
      obtain ⟨ih1, ih2, ih3, ih4⟩ := ih (classifyStep out ps ntid acc x) hnd.2
      have step_cnt : acc.2.2.1 ≤ (classifyStep out ps ntid acc x).2.2.1 := by
        unfold classifyStep
        cases out x with
        | ok => by_cases hps : ps.isEmpty <;> simp [hps]
        | refused => simp
        | errOther => by_cases hx : x = ntid <;> simp [hx]
      have step_ref : ∀ q, q ∈ acc.2.1 → q ∈ (classifyStep out ps ntid acc x).2.1 := by
        intro q hq
        unfold classifyStep
        cases out x with
        | ok => by_cases hps : ps.isEmpty <;> simp [hps] <;> exact hq
        | refused => exact mem_rinsert_of_mem x hq
        | errOther =>
            by_cases hx : x = ntid
            · rw [if_pos hx]
              exact mem_rinsert_of_mem x hq
            · rw [if_neg hx]
              exact hq
      have step_pres : ∀ q, q ≠ x → deliveredExact acc.1 q ps →
          deliveredExact (classifyStep out ps ntid acc x).1 q ps := by
        intro q hqx hP
        unfold classifyStep
        cases out x with
        | ok =>
            by_cases hps : ps.isEmpty
            · rw [if_pos hps]
              exact hP
            · rw [if_neg hps]
              exact deliveredExact_syncDone_other x ps hqx hP
        | refused => exact hP
        | errOther =>
            by_cases hx : x = ntid
            · rw [if_pos hx]
              exact hP
            · rw [if_neg hx]
              exact hP
      refine ⟨le_trans step_cnt ih1, fun q hq => ih2 q (step_ref q hq), ?_, ?_⟩
      · intro q hq hP
        simp only [List.mem_cons, not_or] at hq
        exact ih3 q hq.2 (step_pres q hq.1 hP)
      · intro hcnt q hq hqref
        have hstep_eq : (classifyStep out ps ntid acc x).2.2.1 = acc.2.2.1 := by
          omega
        have hres_eq : (xs.foldl (classifyStep out ps ntid) (classifyStep out ps ntid acc x)).2.2.1
            = (classifyStep out ps ntid acc x).2.2.1 := by
          omega
        rcases List.mem_cons.1 hq with h | h
        · subst h
          cases hox : out q with
          | ok =>
              by_cases hps : ps.isEmpty
              · intro pr hpr
                rw [List.isEmpty_iff.1 hps] at hpr
                simp at hpr
              · have h1 : (classifyStep out ps ntid acc q).1 = syncDone acc.1 q ps := by
                  unfold classifyStep
                  rw [hox]
                  dsimp only
                  rw [if_neg hps]
                refine ih3 q hnd.1 ?_
                rw [h1]
                exact syncDone_self acc.1 q ps hn
          | refused =>
              have h2 : q ∈ (classifyStep out ps ntid acc q).2.1 := by
                unfold classifyStep
                rw [hox]
                exact mem_rinsert_self acc.2.1 q
              exact absurd (ih2 q h2) hqref
          | errOther =>
              by_cases hx : q = ntid
              · have h2 : q ∈ (classifyStep out ps ntid acc q).2.1 := by
                  unfold classifyStep
                  rw [hox]
                  dsimp only
                  rw [if_pos hx]
                  exact mem_rinsert_self acc.2.1 q
                exact absurd (ih2 q h2) hqref
              · have h3 : (classifyStep out ps ntid acc q).2.2.1 = acc.2.2.1 + 1 := by
                  unfold classifyStep
                  rw [hox]
                  dsimp only
                  rw [if_neg hx]
                omega
        · exact ih4 hres_eq q h hqref

theorem retryLoop_master (selfID : String) (cfg : Config) (env : SyncEnv) (method : String)
    (body : BcastBody) (ps : List RevsPair) (N : List String)
    (hn : (ps.map fun pr => pr.revs.tag).Nodup)
    (hprim : ∀ i, (env.smapR i).isPrimary selfID = true) :
    ∀ (fuel round : Nat) (st : MetaState) (ref : List String) (tr : List Event),
      ∃ st2 ref2 tr2,
        retryLoop selfID cfg env method body ps fuel round st ref tr = .done st2 ref2 tr2 ∧
        (ref.Nodup → (∀ q ∈ N, q ∉ ref → deliveredExact st q ps) →
          ref2.Nodup ∧ ∀ q ∈ N, q ∉ ref2 → deliveredExact st2 q ps) := by
  intro fuel
  induction fuel with
  | zero =>
      intro round st ref tr
      exact ⟨st, ref, tr, rfl, fun hnd hinv => ⟨hnd, hinv⟩⟩
  | succ n ihf =>
      intro round st ref tr
      by_cases he : ref = []
      · subst he
        rw [retryLoop_empty]
        exact ⟨st, [], tr, rfl, fun hnd hinv => ⟨hnd, hinv⟩⟩
      · rw [retryLoop_round selfID cfg env method body ps n round st ref tr he (hprim round)]
        obtain ⟨st2, ref2, tr2, hdone, hmain⟩ := ihf (round + 1)
          (handleRefusedFold st ref (ref.filter (fun q => q ≠ selfID)) (env.outR round) ps).1
          (handleRefusedFold st ref (ref.filter (fun q => q ≠ selfID)) (env.outR round) ps).2.1
          ((tr ++ [.sleepE cfg.cplaneOperation]) ++
            .bcastE method body cfg.maxKeepalive (ref.filter (fun q => q ≠ selfID)) ::
              (handleRefusedFold st ref (ref.filter (fun q => q ≠ selfID))
                (env.outR round) ps).2.2)
        refine ⟨st2, ref2, tr2, hdone, ?_⟩
        intro hnd hinv
        apply hmain
        · unfold handleRefusedFold
          exact hrf_go_nodup (env.outR round) ps _ (st, ref, []) hnd
        · intro q hqN hqref
          unfold handleRefusedFold at hqref ⊢
          refine hrf_go_main (env.outR round) ps hn (ref.filter (fun q => q ≠ selfID))
            (st, ref, []) (List.filter_subset' ref) (List.Nodup.filter _ hnd) q hqref ?_
          intro hq
          exact hinv q hqN hq

/-! ## C1 (amended): zero failures means delivery to every peer -/

/-- C1 (amended): if a `doSync` with a non-empty, duplicate-tag-free pair
list returns 0 failures while the node stays primary over a stable
cluster map (so the `becomeNonPrimary` bail of the refused-retry phase is
not taken - as stated the claim fails on that bail, see the
counterexample), then for every pair that survived the filter and every
peer of the cluster map other than the node itself, the recorded
delivered version is at least the pair's version. -/
theorem c1_zero_failures_amended (selfID : String) (cfg : Config) (st : MetaState)
    (env : SyncEnv) (pairs : List RevsPair) (st' : MetaState) (cnt : Nat) (tr : List Event)
    (early : Bool) (rem : List String)
    (hpairs : pairs ≠ [])
    (hn : (pairs.map fun pr => pr.revs.tag).Nodup)
    (hnodes : (smapIDs env.smap0).Nodup)
    (hstableR : ∀ i, env.smapR i = env.smap0)
    (hstableF : env.smapF = env.smap0)
    (hprim : env.smap0.isPrimary selfID = true)
    (h : doSync selfID cfg st env pairs none = .ok st' cnt tr early rem)
    (hcnt : cnt = 0) :
    early = false ∧
    ∀ pr ∈ pairs.filter (keepPair st (countNewMembers st env.smap0)),
      ∀ q, q ∈ smapIDs env.smap0 → q ≠ selfID →
        vermapAtLeast st' q pr.revs.tag pr.revs.version = true := by
  subst hcnt
  unfold doSync at h
  dsimp only at h
  split at h
  · simp at h
  · split at h
    · rename_i hemp
      exact absurd (List.isEmpty_iff.mp hemp) hpairs
    · split at h
      · rename_i hsome
        simp at hsome
      · split at h
        · simp at h
        · split at h
          · rename_i hpsE
            simp only [SyncRes.ok.injEq] at h
            obtain ⟨-, -, -, h4, -⟩ := h
            refine ⟨h4.symm, ?_⟩
            intro pr hpr
            rw [List.isEmpty_iff.mp hpsE] at hpr
            simp at hpr
          · rename_i hpsE
            unfold afterBcast at h
            dsimp only at h
            have hps_nodup :
                ((pairs.filter (keepPair st (countNewMembers st env.smap0))).map
                  fun pr => pr.revs.tag).Nodup :=
              List.Nodup.sublist
                (List.Sublist.map _ (List.filter_sublist pairs)) hn
            have hN_nodup : (bcastNodes env.smap0 selfID).Nodup := by
              unfold bcastNodes
              exact List.Nodup.filter _ hnodes
            obtain ⟨st2, ref2, tr2, hdone, hmain⟩ :=
              retryLoop_master selfID cfg env "PUT"
                (BcastBody.payloadB
                  (publishPayload (pairs.filter (keepPair st (countNewMembers st env.smap0)))))
                (pairs.filter (keepPair st (countNewMembers st env.smap0)))
                (bcastNodes env.smap0 selfID) hps_nodup
                (fun i => by rw [hstableR i]; exact hprim)
                10 0
                (classify
                  { revsmap := st.revsmap,
                    last := publishLast st.last
                      (pairs.filter (keepPair st (countNewMembers st env.smap0))),
                    lastclone := publishClone st.lastclone
                      (pairs.filter (keepPair st (countNewMembers st env.smap0))) }
                  env.out0 (bcastNodes env.smap0 selfID)
                  (pairs.filter (keepPair st (countNewMembers st env.smap0)))
                  (newTargetIDof
                    (pairs.filter (keepPair st (countNewMembers st env.smap0))))).1
                (classify
                  { revsmap := st.revsmap,
                    last := publishLast st.last
                      (pairs.filter (keepPair st (countNewMembers st env.smap0))),
                    lastclone := publishClone st.lastclone
                      (pairs.filter (keepPair st (countNewMembers st env.smap0))) }
                  env.out0 (bcastNodes env.smap0 selfID)
                  (pairs.filter (keepPair st (countNewMembers st env.smap0)))
                  (newTargetIDof
                    (pairs.filter (keepPair st (countNewMembers st env.smap0))))).2.1
                (.bcastE "PUT"
                  (BcastBody.payloadB
                    (publishPayload (pairs.filter (keepPair st (countNewMembers st env.smap0)))))
                  (2 * cfg.cplaneOperation) (bcastNodes env.smap0 selfID) ::
                  (classify
                    { revsmap := st.revsmap,
                      last := publishLast st.last
                        (pairs.filter (keepPair st (countNewMembers st env.smap0))),
                      lastclone := publishClone st.lastclone
                        (pairs.filter (keepPair st (countNewMembers st env.smap0))) }
                    env.out0 (bcastNodes env.smap0 selfID)
                    (pairs.filter (keepPair st (countNewMembers st env.smap0)))
                    (newTargetIDof
                      (pairs.filter (keepPair st (countNewMembers st env.smap0))))).2.2.2)
            rw [hdone] at h
            simp only [finishSync, SyncRes.ok.injEq] at h
            obtain ⟨h1, h2, h3, h4, h5⟩ := h
            have hcr0 : (classify
                  { revsmap := st.revsmap,
                    last := publishLast st.last
                      (pairs.filter (keepPair st (countNewMembers st env.smap0))),
                    lastclone := publishClone st.lastclone
                      (pairs.filter (keepPair st (countNewMembers st env.smap0))) }
                  env.out0 (bcastNodes env.smap0 selfID)
                  (pairs.filter (keepPair st (countNewMembers st env.smap0)))
                  (newTargetIDof
                    (pairs.filter (keepPair st (countNewMembers st env.smap0))))).2.2.1 = 0 := by
              omega
            have href2 : ref2 = [] := by
              have : ref2.length = 0 := by omega
              exact List.length_eq_zero.mp this
            refine ⟨h4.symm, ?_⟩
            intro pr hpr q hqS hqself
            have hqN : q ∈ bcastNodes env.smap0 selfID := by
              unfold bcastNodes
              unfold smapIDs at hqS
              refine List.mem_filter.2 ⟨hqS, ?_⟩
              simp [hqself]
            obtain ⟨hm1, hm2, hm3, hm4⟩ :=
              classify_go_main env.out0
                (pairs.filter (keepPair st (countNewMembers st env.smap0)))
                (newTargetIDof (pairs.filter (keepPair st (countNewMembers st env.smap0))))
                hps_nodup (bcastNodes env.smap0 selfID)
                ({ revsmap := st.revsmap,
                   last := publishLast st.last
                     (pairs.filter (keepPair st (countNewMembers st env.smap0))),
                   lastclone := publishClone st.lastclone
                     (pairs.filter (keepPair st (countNewMembers st env.smap0))) }, [], 0, [])
                hN_nodup
            have hinv := hm4 hcr0
            have hrefnodup : (classify
                  { revsmap := st.revsmap,
                    last := publishLast st.last
                      (pairs.filter (keepPair st (countNewMembers st env.smap0))),
                    lastclone := publishClone st.lastclone
                      (pairs.filter (keepPair st (countNewMembers st env.smap0))) }
                  env.out0 (bcastNodes env.smap0 selfID)
                  (pairs.filter (keepPair st (countNewMembers st env.smap0)))
                  (newTargetIDof
                    (pairs.filter (keepPair st (countNewMembers st env.smap0))))).2.1.Nodup :=
              classify_go_nodup _ _ _ _ _ List.nodup_nil
            obtain ⟨-, hfin⟩ := hmain hrefnodup hinv
            have hdel : deliveredExact st2 q
                (pairs.filter (keepPair st (countNewMembers st env.smap0))) := by
              refine hfin q hqN ?_
              rw [href2]
              simp
            have hvm : vmLookup st2 q pr.revs.tag = some pr.revs.version := hdel pr hpr
            have hcontains : env.smapF.containsID q = true := by
              rw [hstableF]
              unfold SmapX.containsID
              unfold smapIDs at hqS
              rcases List.mem_append.1 hqS with hh | hh
              · simp only [Bool.or_eq_true]
                simp
                exact Or.inl hh
              · simp only [Bool.or_eq_true]
                simp
                exact Or.inr hh
            have hpres : vmLookup st' q pr.revs.tag = some pr.revs.version := by
              rw [← h1]
              unfold housekeep vmLookup
              dsimp only
              rw [alookup_filter_key (fun k => env.smapF.containsID k) st2.revsmap q hcontains]
              exact hvm
            unfold vermapAtLeast
            rw [hpres]
            simp

/-- Witness for C1 (amended) on a concrete refused-then-retried run. -/
theorem c1_zero_failures_witness : vermapAtLeast st1 "t1" "bucketmdtag" 1 = true :=
  ((c1_zero_failures_amended "p" cfg0 initMS envRetry [pairA] st1 0 trRetry false []
      (by decide) (by decide) (by decide) (fun i => rfl) rfl rfl (by decide) rfl).2)
    pairA (by decide) "t1" (by decide) (by decide)

/-! ## C8 (amended): duplicate syncs re-broadcast but change nothing -/

theorem syncDone_id (st : MetaState) (q : String) (pair : RevsPair)
    (h : vmLookup st q pair.revs.tag = some pair.revs.version) :
    syncDone st q [pair] = st := by
  unfold vmLookup at h
  cases hvm : alookup st.revsmap q with
  | none =>
      rw [hvm] at h
      simp at h
  | some vm =>
      rw [hvm] at h
      simp only [Option.some_bind] at h
      unfold syncDone
      dsimp only
      rw [hvm]
      have h1 : vermapSet vm [pair] = vm := by
        unfold vermapSet
        rw [List.foldl_cons, List.foldl_nil, aset_eq_of_lookup h]
      rw [Option.getD_some, h1, aset_eq_of_lookup hvm]

theorem classify_id_of_ok (st : MetaState) (out : String → Outcome) (ps : List RevsPair)
    (ntid : String) (nodes : List String)
    (hok : ∀ q ∈ nodes, out q = .ok)
    (hid : ∀ q ∈ nodes, ps.isEmpty = false → syncDone st q ps = st) :
    (classify st out nodes ps ntid).1 = st ∧ (classify st out nodes ps ntid).2.1 = [] ∧
    (classify st out nodes ps ntid).2.2.1 = 0 := by
  unfold classify
  refine foldl_preserve
    (fun acc : MetaState × List String × Nat × List Event =>
      acc.1 = st ∧ acc.2.1 = [] ∧ acc.2.2.1 = 0)
    (classifyStep out ps ntid) nodes (st, [], 0, []) ⟨rfl, rfl, rfl⟩ ?_
  intro b q hq hb
  unfold classifyStep
  rw [hok q hq]
  dsimp only
  by_cases hps : ps.isEmpty
  · rw [if_pos hps]
    exact hb
  · rw [if_neg hps]
    refine ⟨?_, hb.2.1, hb.2.2⟩
    rw [hb.1]
    exact hid q hq (by simpa using hps)

/-- C8 (amended): re-syncing an already delivered `(tag, version)` pair
with an unchanged cluster membership does NOT drop the pair as a
duplicate: `countNewMembers` is non-zero (the primary itself never has a
delivery-state entry since the broadcaster excludes self), so one more
PUT broadcast goes out; still, the registry and the delivery state are
left exactly unchanged and zero failures are returned. -/
theorem c8_idempotent_amended (selfID : String) (cfg : Config) (st : MetaState)
    (env : SyncEnv) (pair : RevsPair)
    (hcow : cowViolation st = false)
    (hlast : alookup st.last pair.revs.tag = some pair.revs)
    (hclone : alookup st.lastclone pair.revs.tag = some pair.revs.marshalled)
    (htag : pair.revs.tag ≠ smaptag)
    (hnew : countNewMembers st env.smap0 ≠ 0)
    (hok : ∀ q, env.out0 q = .ok)
    (hvm : ∀ q ∈ bcastNodes env.smap0 selfID, vmLookup st q pair.revs.tag = some pair.revs.version)
    (hkeep : ∀ e ∈ st.revsmap, env.smapF.containsID e.1 = true) :
    ∃ tr, doSync selfID cfg st env [pair] none = .ok st 0 tr false [] ∧ bcastCount tr = 1 := by
  have hfatal : smapFatal env.smap0 [pair] = false := by
    unfold smapFatal
    simp [htag]
  have hkeepP : keepPair st (countNewMembers st env.smap0) pair = true := by
    unfold keepPair lversion
    rw [hlast]
    simp [hnew]
  have hfilter : List.filter (keepPair st (countNewMembers st env.smap0)) [pair] = [pair] := by
    rw [List.filter_cons]
    simp [hkeepP]
  have hpubL : publishLast st.last [pair] = st.last := by
    unfold publishLast
    rw [List.foldl_cons, List.foldl_nil, aset_eq_of_lookup hlast]
  have hpubC : publishClone st.lastclone [pair] = st.lastclone := by
    unfold publishClone
    rw [List.foldl_cons, List.foldl_nil, aset_eq_of_lookup hclone]
  have hst1 : MetaState.mk st.revsmap (publishLast st.last [pair])
      (publishClone st.lastclone [pair]) = st := by
    rw [hpubL, hpubC]
  have hcl := classify_id_of_ok st env.out0 [pair]
    (newTargetIDof [pair]) (bcastNodes env.smap0 selfID)
    (fun q _ => hok q)
    (fun q hq _ => syncDone_id st q pair (hvm q hq))
  have hhk : housekeep st env.smapF = st := by
    unfold housekeep
    have : st.revsmap.filter (fun e => env.smapF.containsID e.1) = st.revsmap :=
      List.filter_eq_self.mpr hkeep
    rw [this]
  refine ⟨.bcastE "PUT" (.payloadB (publishPayload [pair])) (2 * cfg.cplaneOperation)
      (bcastNodes env.smap0 selfID) ::
      (classify st env.out0 (bcastNodes env.smap0 selfID) [pair]
        (newTargetIDof [pair])).2.2.2, ?_, ?_⟩
  · unfold doSync
    simp only [hcow, Bool.false_eq_true, if_false, List.isEmpty_cons, Option.isSome_none,
      hfatal, hfilter]
    rw [hst1]
    unfold afterBcast
    dsimp only
    rw [hcl.1, hcl.2.1, retryLoop_empty]
    unfold finishSync
    dsimp only
    rw [hcl.2.2, hhk]
    rfl
  · have hws := classify_trace_counts st env.out0 (bcastNodes env.smap0 selfID) [pair]
      (newTargetIDof [pair])
    simp [bcastCount, List.filter_cons]
    have := hws.2
    simpa [bcastCount] using this

/-- Witness for C8 (amended): the second sync of `pairA` from `st1`. -/
theorem c8_idempotent_witness :
    ∃ tr, doSync "p" cfg0 st1 envOK [pairA] none = .ok st1 0 tr false [] ∧ bcastCount tr = 1 :=
  c8_idempotent_amended "p" cfg0 st1 envOK pairA (by decide) (by decide) (by decide)
    (by decide) (by decide) (fun q => rfl) (by decide) (by decide)

/-! ## Write-trace characterization (towards C2) -/

theorem eventFromPs_writesOf (ps : List RevsPair) (q : String) :
    ∀ e ∈ writesOf q ps, eventFromPs ps e := by
  intro e he
  rcases List.mem_map.1 he with ⟨pr, hpr, rfl⟩
  exact ⟨pr, hpr, rfl, rfl⟩

theorem classify_facts (st : MetaState) (out : String → Outcome) (nodes : List String)
    (ps : List RevsPair) (ntid : String) :
    (classify st out nodes ps ntid).1.last = st.last ∧
    (classify st out nodes ps ntid).1.lastclone = st.lastclone ∧
    ∀ e ∈ (classify st out nodes ps ntid).2.2.2, eventFromPs ps e := by
  unfold classify
  refine foldl_preserve
    (fun acc : MetaState × List String × Nat × List Event =>
      acc.1.last = st.last ∧ acc.1.lastclone = st.lastclone ∧
        ∀ e ∈ acc.2.2.2, eventFromPs ps e)
    (classifyStep out ps ntid) nodes (st, [], 0, []) ⟨rfl, rfl, by simp⟩ ?_
  intro b q _ hb
  unfold classifyStep
  cases out q with
  | ok =>
      by_cases hps : ps.isEmpty
      · rw [if_pos hps]
        exact hb
      · rw [if_neg hps]
        refine ⟨hb.1, hb.2.1, ?_⟩
        intro e he
        rcases List.mem_append.1 he with h | h
        · exact hb.2.2 e h
        · exact eventFromPs_writesOf ps q e h
  | refused => exact hb
  | errOther =>
      by_cases hq : q = ntid
      · rw [if_pos hq]
        exact hb
      · rw [if_neg hq]
        exact hb

theorem hrf_facts (st : MetaState) (refused resNodes : List String)
    (out : String → Outcome) (ps : List RevsPair) :
    (handleRefusedFold st refused resNodes out ps).1.last = st.last ∧
    (handleRefusedFold st refused resNodes out ps).1.lastclone = st.lastclone ∧
    ∀ e ∈ (handleRefusedFold st refused resNodes out ps).2.2, eventFromPs ps e := by
  unfold handleRefusedFold
  refine foldl_preserve
    (fun acc : MetaState × List String × List Event =>
      acc.1.last = st.last ∧ acc.1.lastclone = st.lastclone ∧
        ∀ e ∈ acc.2.2, eventFromPs ps e)
    (hrfStep out ps) resNodes (st, refused, []) ⟨rfl, rfl, by simp⟩ ?_
  intro b q _ hb
  unfold hrfStep
  cases out q with
  | ok =>
      refine ⟨hb.1, hb.2.1, ?_⟩
      intro e he
      rcases List.mem_append.1 he with h | h
      · exact hb.2.2 e h
      · exact eventFromPs_writesOf ps q e h
  | refused => exact hb
  | errOther => exact hb

theorem retryLoop_facts (selfID : String) (cfg : Config) (env : SyncEnv) (method : String)
    (body : BcastBody) (ps : List RevsPair) :
    ∀ (fuel round : Nat) (st : MetaState) (ref : List String) (tr : List Event)
      (st2 : MetaState) (ref2 : List String) (tr2 : List Event),
      (∀ e ∈ tr, eventFromPs ps e) →
      (retryLoop selfID cfg env method body ps fuel round st ref tr = .early st2 ref2 tr2 ∨
        retryLoop selfID cfg env method body ps fuel round st ref tr = .done st2 ref2 tr2) →
      st2.last = st.last ∧ st2.lastclone = st.lastclone ∧ ∀ e ∈ tr2, eventFromPs ps e := by
  intro fuel
  induction fuel with
  | zero =>
      intro round st ref tr st2 ref2 tr2 htr hres
      rcases hres with hres | hres
      · simp [retryLoop] at hres
      · simp only [retryLoop, LoopRes.done.injEq] at hres
        obtain ⟨h1, -, h3⟩ := hres
        subst h1
        subst h3
        exact ⟨rfl, rfl, htr⟩
  | succ n ih =>
      intro round st ref tr st2 ref2 tr2 htr hres
      by_cases he : ref = []
      · subst he
        rw [retryLoop_empty] at hres
        rcases hres with hres | hres
        · simp at hres
        · simp only [LoopRes.done.injEq] at hres
          obtain ⟨h1, -, h3⟩ := hres
          subst h1
          subst h3
          exact ⟨rfl, rfl, htr⟩
      · by_cases hp : (env.smapR round).isPrimary selfID
        · rw [retryLoop_round selfID cfg env method body ps n round st ref tr he hp] at hres
          have hhrf := hrf_facts st ref (ref.filter (fun q => q ≠ selfID)) (env.outR round) ps
          have htr' : ∀ e ∈ ((tr ++ [Event.sleepE cfg.cplaneOperation]) ++
              Event.bcastE method body cfg.maxKeepalive (ref.filter (fun q => q ≠ selfID)) ::
                (handleRefusedFold st ref (ref.filter (fun q => q ≠ selfID))
                  (env.outR round) ps).2.2), eventFromPs ps e := by
            intro e he
            rcases List.mem_append.1 he with h | h
            · rcases List.mem_append.1 h with h | h
              · exact htr e h
              · rw [List.mem_singleton.1 h]
                exact trivial
            · rcases List.mem_cons.1 h with h | h
              · rw [h]
                exact trivial
              · exact hhrf.2.2 e h
          have := ih (round + 1)
            (handleRefusedFold st ref (ref.filter (fun q => q ≠ selfID)) (env.outR round) ps).1
            (handleRefusedFold st ref (ref.filter (fun q => q ≠ selfID)) (env.outR round) ps).2.1
            ((tr ++ [Event.sleepE cfg.cplaneOperation]) ++
              Event.bcastE method body cfg.maxKeepalive (ref.filter (fun q => q ≠ selfID)) ::
                (handleRefusedFold st ref (ref.filter (fun q => q ≠ selfID))
                  (env.outR round) ps).2.2)
            st2 ref2 tr2 htr' hres
          exact ⟨this.1.trans hhrf.1, this.2.1.trans hhrf.2.1, this.2.2⟩
        · have hp' : (env.smapR round).isPrimary selfID = false := by simpa using hp
          rw [retryLoop_bail selfID cfg env method body ps n round st ref tr he hp'] at hres
          rcases hres with hres | hres
          · simp only [LoopRes.early.injEq] at hres
            obtain ⟨h1, -, h3⟩ := hres
            subst h1
            subst h3
            refine ⟨rfl, rfl, ?_⟩
            intro e he
            rcases List.mem_append.1 he with h | h
            · exact htr e h
            · rw [List.mem_singleton.1 h]
              exact trivial
          · simp at hres

theorem afterBcast_facts (selfID : String) (cfg : Config) (env : SyncEnv) (st0 : MetaState)
    (method : String) (body : BcastBody) (ps : List RevsPair) (ntid : String)
    (st' : MetaState) (cnt : Nat) (tr : List Event) (e : Bool) (rem : List String)
    (h : afterBcast selfID cfg env st0 method body ps ntid = .ok st' cnt tr e rem) :
    st'.last = st0.last ∧ st'.lastclone = st0.lastclone ∧ ∀ ev ∈ tr, eventFromPs ps ev := by
  unfold afterBcast at h
  dsimp only at h
  have hcl := classify_facts st0 env.out0 (bcastNodes env.smap0 selfID) ps ntid
  have htr0 : ∀ ev ∈ (Event.bcastE method body (2 * cfg.cplaneOperation)
      (bcastNodes env.smap0 selfID) ::
      (classify st0 env.out0 (bcastNodes env.smap0 selfID) ps ntid).2.2.2),
      eventFromPs ps ev := by
    intro ev hev
    rcases List.mem_cons.1 hev with hh | hh
    · rw [hh]
      exact trivial
    · exact hcl.2.2 ev hh
  cases hlr : retryLoop selfID cfg env method body ps 10 0
      (classify st0 env.out0 (bcastNodes env.smap0 selfID) ps ntid).1
      (classify st0 env.out0 (bcastNodes env.smap0 selfID) ps ntid).2.1
      (Event.bcastE method body (2 * cfg.cplaneOperation) (bcastNodes env.smap0 selfID) ::
        (classify st0 env.out0 (bcastNodes env.smap0 selfID) ps ntid).2.2.2) with
  | early st2 ref2 tr2 =>
      rw [hlr] at h
      have hfa := retryLoop_facts selfID cfg env method body ps 10 0
        (classify st0 env.out0 (bcastNodes env.smap0 selfID) ps ntid).1
        (classify st0 env.out0 (bcastNodes env.smap0 selfID) ps ntid).2.1
        (Event.bcastE method body (2 * cfg.cplaneOperation) (bcastNodes env.smap0 selfID) ::
          (classify st0 env.out0 (bcastNodes env.smap0 selfID) ps ntid).2.2.2)
        st2 ref2 tr2 htr0 (Or.inl hlr)
      simp only [finishSync, SyncRes.ok.injEq] at h
      obtain ⟨h1, -, h3, -, -⟩ := h
      subst h1
      subst h3
      exact ⟨hfa.1.trans hcl.1, hfa.2.1.trans hcl.2.1, hfa.2.2⟩
  | done st2 ref2 tr2 =>
      rw [hlr] at h
      have hfa := retryLoop_facts selfID cfg env method body ps 10 0
        (classify st0 env.out0 (bcastNodes env.smap0 selfID) ps ntid).1
        (classify st0 env.out0 (bcastNodes env.smap0 selfID) ps ntid).2.1
        (Event.bcastE method body (2 * cfg.cplaneOperation) (bcastNodes env.smap0 selfID) ::
          (classify st0 env.out0 (bcastNodes env.smap0 selfID) ps ntid).2.2.2)
        st2 ref2 tr2 htr0 (Or.inr hlr)
      simp only [finishSync, SyncRes.ok.injEq] at h
      obtain ⟨h1, -, h3, -, -⟩ := h
      subst h3
      refine ⟨?_, ?_, hfa.2.2⟩
      · rw [← h1]
        exact hfa.1.trans hcl.1
      · rw [← h1]
        exact hfa.2.1.trans hcl.2.1

theorem publishLast_lookup_notmem (ps : List RevsPair) (t : String)
    (h : t ∉ ps.map fun pr => pr.revs.tag) :
    ∀ last, alookup (publishLast last ps) t = alookup last t := by
  induction ps with
  | nil => intro last; rfl
  | cons pr rest ih =>
      intro last
      simp only [List.map_cons, List.mem_cons, not_or] at h
      unfold publishLast
      rw [List.foldl_cons]
      have := ih (fun hm => h.2 hm) (aset last pr.revs.tag pr.revs)
      unfold publishLast at this
      rw [this, alookup_aset_ne _ _ _ _ h.1]

theorem publishLast_lookup (ps : List RevsPair)
    (hn : (ps.map fun pr => pr.revs.tag).Nodup) :
    ∀ last, ∀ pr ∈ ps, alookup (publishLast last ps) pr.revs.tag = some pr.revs := by
  induction ps with
  | nil => intro last pr hpr; simp at hpr
  | cons pr0 rest ih =>
      intro last pr hpr
      simp only [List.map_cons, List.nodup_cons] at hn
      rcases List.mem_cons.1 hpr with h | h
      · subst h
        unfold publishLast
        rw [List.foldl_cons]
        have := publishLast_lookup_notmem rest pr.revs.tag hn.1 (aset last pr.revs.tag pr.revs)
        unfold publishLast at this
        rw [this, alookup_aset_self]
      · unfold publishLast
        rw [List.foldl_cons]
        exact ih hn.2 (aset last pr0.revs.tag pr0.revs) pr h

theorem publishLast_cases (ps : List RevsPair) (t : String) :
    ∀ last, alookup (publishLast last ps) t = alookup last t ∨
      ∃ pr ∈ ps, pr.revs.tag = t ∧ alookup (publishLast last ps) t = some pr.revs := by
  induction ps with
  | nil => intro last; exact Or.inl rfl
  | cons pr rest ih =>
      intro last
      unfold publishLast
      rw [List.foldl_cons]
      rcases ih (aset last pr.revs.tag pr.revs) with h | h
      · by_cases ht : pr.revs.tag = t
        · refine Or.inr ⟨pr, List.mem_cons_self _ _, ht, ?_⟩
          unfold publishLast at h
          rw [h, ← ht, alookup_aset_self]
        · refine Or.inl ?_
          unfold publishLast at h
          rw [h, alookup_aset_ne _ _ _ _ (fun he => ht he.symm)]
      · obtain ⟨pr', hpr', ht', he'⟩ := h
        exact Or.inr ⟨pr', List.mem_cons_of_mem _ hpr', ht', he'⟩

theorem keepPair_ge (st : MetaState) (n : Nat) (pr : RevsPair)
    (h : keepPair st n pr = true) : lversion st pr.revs.tag ≤ pr.revs.version := by
  unfold keepPair at h
  simp only [Bool.not_eq_eq_eq_not, Bool.not_true, Bool.or_eq_false_iff,
    decide_eq_false_iff_not] at h
  by_contra hlt
  push_neg at hlt
  exact absurd hlt (by simpa using h.2)

theorem lastWF_publishLast (st : List (String × Revs)) (ps : List RevsPair)
    (hWF : (∀ e ∈ st, e.1 = e.2.tag) ∧ (st.map Prod.fst).Nodup) :
    (∀ e ∈ publishLast st ps, e.1 = e.2.tag) ∧ ((publishLast st ps).map Prod.fst).Nodup := by
  induction ps generalizing st with
  | nil => exact hWF
  | cons pr rest ih =>
      unfold publishLast
      rw [List.foldl_cons]
      refine ih (aset st pr.revs.tag pr.revs) ⟨?_, nodup_keys_aset _ _ hWF.2⟩
      intro e he
      rcases mem_aset he with h | h
      · rw [h]
      · exact hWF.1 e h

theorem lversion_last_eq {st st' : MetaState} (h : st'.last = st.last) :
    ∀ t, lversion st' t = lversion st t := by
  intro t
  unfold lversion
  rw [h]

theorem doSync_step_facts (selfID : String) (cfg : Config) (st : MetaState) (env : SyncEnv)
    (pairs : List RevsPair) (msgInt : Option ActionMsg) (st' : MetaState) (cnt : Nat)
    (tr : List Event) (e : Bool) (rem : List String)
    (hWF : lastWF st)
    (hn : (pairs.map fun pr => pr.revs.tag).Nodup)
    (h : doSync selfID cfg st env pairs msgInt = .ok st' cnt tr e rem) :
    lastWF st' ∧ (∀ t, lversion st t ≤ lversion st' t) ∧ ∀ ev ∈ tr, writeOK st' ev := by
  unfold doSync at h
  dsimp only at h
  split at h
  · simp at h
  · split at h
    · have hfa := afterBcast_facts selfID cfg env st "POST" _ [] "" st' cnt tr e rem h
      refine ⟨?_, ?_, ?_⟩
      · unfold lastWF
        rw [hfa.1]
        exact hWF
      · intro t
        rw [lversion_last_eq hfa.1]
      · intro ev hev
        have hfp := hfa.2.2 ev hev
        cases ev with
        | writeE q t w =>
            exact absurd hfp (by simp [eventFromPs])
        | bcastE m b d ns => exact trivial
        | sleepE d => exact trivial
    · split at h
      · simp at h
      · split at h
        · simp at h
        · split at h
          · simp only [SyncRes.ok.injEq] at h
            obtain ⟨h1, -, h3, -, -⟩ := h
            subst h1
            subst h3
            exact ⟨hWF, fun t => le_refl _, by simp⟩
          · have hpsn : ((pairs.filter (keepPair st (countNewMembers st env.smap0))).map
                fun pr => pr.revs.tag).Nodup :=
              List.Nodup.sublist (List.Sublist.map _ (List.filter_sublist pairs)) hn
            have hfa := afterBcast_facts selfID cfg env
              { revsmap := st.revsmap,
                last := publishLast st.last
                  (pairs.filter (keepPair st (countNewMembers st env.smap0))),
                lastclone := publishClone st.lastclone
                  (pairs.filter (keepPair st (countNewMembers st env.smap0))) }
              "PUT" _ _ _ st' cnt tr e rem h
            have hlast : st'.last = publishLast st.last
                (pairs.filter (keepPair st (countNewMembers st env.smap0))) := hfa.1
            refine ⟨?_, ?_, ?_⟩
            · unfold lastWF
              rw [hlast]
              exact lastWF_publishLast st.last _ hWF
            · intro t
              unfold lversion
              rw [hlast]
              rcases publishLast_cases
                  (pairs.filter (keepPair st (countNewMembers st env.smap0))) t st.last
                with hc | hc
              · rw [hc]
              · obtain ⟨pr, hpr, ht, he⟩ := hc
                rw [he]
                have hk : keepPair st (countNewMembers st env.smap0) pr = true :=
                  List.of_mem_filter hpr
                have := keepPair_ge st (countNewMembers st env.smap0) pr hk
                rw [ht] at this
                unfold lversion at this
                exact this
            · intro ev hev
              have hfp := hfa.2.2 ev hev
              cases ev with
              | writeE q t w =>
                  obtain ⟨pr, hpr, ht, hw⟩ := hfp
                  show w = lversion st' t
                  unfold lversion
                  rw [hlast, ht,
                    publishLast_lookup _ hpsn st.last pr hpr, hw]
              | bcastE m b d ns => exact trivial
              | sleepE d => exact trivial

theorem pendingCalcGo_facts :
    ∀ (ids : List String) (st : MetaState) (count : Nat) (plist : List String)
      (st1 : MetaState) (c : Nat) (p : List String),
      pendingCalcGo ids st count plist = .ok (st1, c, p) →
      st1.last = st.last ∧ st1.lastclone = st.lastclone := by
  intro ids
  induction ids with
  | nil =>
      intro st count plist st1 c p h
      simp only [pendingCalcGo, Except.ok.injEq, Prod.mk.injEq] at h
      rw [← h.1]
      exact ⟨rfl, rfl⟩
  | cons id rest ih =>
      intro st count plist st1 c p h
      unfold pendingCalcGo at h
      cases hvm : alookup st.revsmap id with
      | none =>
          rw [hvm] at h
          dsimp only at h
          have := ih { st with revsmap := aset st.revsmap id [] } (count + 1)
            (rinsert plist id) st1 c p h
          exact this
      | some vm =>
          rw [hvm] at h
          dsimp only at h
          cases hc : checkInSync vm st.last with
          | error e =>
              rw [hc] at h
              simp at h
          | ok b =>
              rw [hc] at h
              cases b with
              | true =>
                  dsimp only at h
                  exact ih _ _ _ _ _ _ h
              | false =>
                  dsimp only at h
                  exact ih _ _ _ _ _ _ h

theorem pendFold_facts (out : String → Outcome) (pairs : List RevsPair)
    (l : List String) (acc : MetaState × Nat × List Event) :
    (l.foldl (pendStep out pairs) acc).1.last = acc.1.last ∧
    (l.foldl (pendStep out pairs) acc).1.lastclone = acc.1.lastclone ∧
    ∀ e ∈ (l.foldl (pendStep out pairs) acc).2.2, e ∈ acc.2.2 ∨ eventFromPs pairs e := by
  refine foldl_preserve
    (fun b : MetaState × Nat × List Event =>
      b.1.last = acc.1.last ∧ b.1.lastclone = acc.1.lastclone ∧
        ∀ e ∈ b.2.2, e ∈ acc.2.2 ∨ eventFromPs pairs e)
    (pendStep out pairs) l acc ⟨rfl, rfl, fun e he => Or.inl he⟩ ?_
  intro b q _ hb
  unfold pendStep
  cases out q with
  | ok =>
      refine ⟨hb.1, hb.2.1, ?_⟩
      intro e he
      rcases List.mem_append.1 he with hh | hh
      · exact hb.2.2 e hh
      · exact Or.inr (eventFromPs_writesOf pairs q e hh)
  | refused => exact hb
  | errOther => exact hb

theorem handlePending_step_facts (selfID : String) (cfg : Config) (st : MetaState)
    (envP : PendEnv) (st' : MetaState) (cnt : Nat) (tr : List Event)
    (hWF : lastWF st)
    (h : handlePending selfID cfg st envP = some (st', cnt, tr)) :
    st'.last = st.last ∧ (∀ t, lversion st t ≤ lversion st' t) ∧ ∀ ev ∈ tr, writeOK st' ev := by
  unfold handlePending at h
  dsimp only at h
  split at h
  · simp only [Option.some.injEq, Prod.mk.injEq] at h
    obtain ⟨h1, -, h3⟩ := h
    subst h1
    rw [← h3]
    exact ⟨rfl, fun t => le_refl _, by simp⟩
  · cases hpc : pendingCalc st envP.smap with
    | error e =>
        rw [hpc] at h
        simp at h
    | ok v =>
        obtain ⟨st1, c, p⟩ := v
        rw [hpc] at h
        dsimp only at h
        have hstL : st1.last = st.last ∧ st1.lastclone = st.lastclone := by
          unfold pendingCalc at hpc
          exact pendingCalcGo_facts _ _ _ _ _ _ _ hpc
        split at h
        · simp only [Option.some.injEq, Prod.mk.injEq] at h
          obtain ⟨h1, -, h3⟩ := h
          subst h1
          rw [← h3]
          refine ⟨hstL.1, ?_, by simp⟩
          intro t
          rw [lversion_last_eq hstL.1]
        · simp only [Option.some.injEq, Prod.mk.injEq] at h
          obtain ⟨h1, -, h3⟩ := h
          have hpf := pendFold_facts envP.out (pairsOfLast st1.last)
            (p.filter (fun q => q ≠ selfID)) (st1, 0, [])
          have hlast' : st'.last = st.last := by
            rw [← h1]
            exact hpf.1.trans hstL.1
          refine ⟨hlast', fun t => by rw [lversion_last_eq hlast'], ?_⟩
          intro ev hev
          rw [← h3] at hev
          rcases List.mem_cons.1 hev with hh | hh
          · rw [hh]
            exact trivial
          · rcases hpf.2.2 ev hh with hh' | hh'
            · simp at hh'
            · cases ev with
              | writeE q t w =>
                  obtain ⟨pr, hpr, ht, hw⟩ := hh'
                  rcases List.mem_map.1 hpr with ⟨entry, hentry, hpr'⟩
                  show w = lversion st' t
                  have hrk : entry.1 = entry.2.tag := hWF.1 entry (hstL.1 ▸ hentry)
                  have hmem : (entry.2.tag, entry.2) ∈ st.last := by
                    rw [← hrk]
                    exact hstL.1 ▸ hentry
                  have hlook : alookup st.last entry.2.tag = some entry.2 :=
                    alookup_of_mem_nodup hWF.2 hmem
                  have hprrevs : pr.revs = entry.2 := by
                    rw [← hpr']
                  unfold lversion
                  rw [hlast', ht, hprrevs, hlook, hw, hprrevs]
              | bcastE m b d ns => exact trivial
              | sleepE d => exact trivial

theorem writesAt_append (t1 t2 : List Event) (p t : String) :
    writesAt (t1 ++ t2) p t = writesAt t1 p t ++ writesAt t2 p t := by
  simp [writesAt, List.filterMap_append]

theorem writesAt_mem {tr : List Event} {p t : String} {w : Int}
    (h : w ∈ writesAt tr p t) : Event.writeE p t w ∈ tr := by
  unfold writesAt at h
  rcases List.mem_filterMap.1 h with ⟨e, he, hfe⟩
  cases e with
  | writeE q t' v =>
      dsimp only at hfe
      by_cases hc : q = p ∧ t' = t
      · rw [if_pos hc] at hfe
        have h3 := Option.some.inj hfe
        rw [← hc.1, ← hc.2, ← h3]
        exact he
      · rw [if_neg hc] at hfe
        simp at hfe
  | bcastE m b d ns =>
      dsimp only at hfe
      simp at hfe
  | sleepE d =>
      dsimp only at hfe
      simp at hfe

theorem pairwise_le_const {l : List Int} {c : Int} (h : ∀ w ∈ l, w = c) :
    List.Pairwise (fun a b => a ≤ b) l := by
  induction l with
  | nil => exact List.Pairwise.nil
  | cons a l ih =>
      rw [List.pairwise_cons]
      refine ⟨?_, ih fun w hw => h w (List.mem_cons_of_mem _ hw)⟩
      intro b hb
      rw [h a (List.mem_cons_self _ _), h b (List.mem_cons_of_mem _ hb)]

theorem pairwise_le_append_const {l1 l2 : List Int} {c : Int}
    (h1 : List.Pairwise (fun a b => a ≤ b) l1) (hub : ∀ w ∈ l1, w ≤ c)
    (h2 : ∀ w ∈ l2, w = c) :
    List.Pairwise (fun a b => a ≤ b) (l1 ++ l2) := by
  rw [List.pairwise_append]
  refine ⟨h1, pairwise_le_const h2, ?_⟩
  intro a ha b hb
  rw [h2 b hb]
  exact hub a ha

theorem reach_invariant (selfID : String) (cfg : Config) :
    ∀ (st : MetaState) (tr : List Event),
      Reach actTagsNodup selfID cfg st tr →
      lastWF st ∧ ∀ p t, List.Pairwise (fun a b => a ≤ b) (writesAt tr p t) ∧
        ∀ w ∈ writesAt tr p t, w ≤ lversion st t := by
  intro st tr hreach
  induction hreach with
  | init =>
      refine ⟨⟨by simp [initMS], by simp [initMS]⟩, ?_⟩
      intro p t
      exact ⟨by simp [writesAt], by simp [writesAt]⟩
  | @step st0 tr0 a st' tr1 hre hP happ ih =>
      have hfacts : lastWF st' ∧ (∀ t, lversion st0 t ≤ lversion st' t) ∧
          ∀ ev ∈ tr1, writeOK st' ev := by
        cases a with
        | syncA env pairs =>
            unfold applyAct at happ
            dsimp only at happ
            cases hds : doSync selfID cfg st0 env pairs none with
            | fatal trf =>
                rw [hds] at happ
                simp at happ
            | ok s c t e r =>
                rw [hds] at happ
                simp only [Option.some.injEq, Prod.mk.injEq] at happ
                obtain ⟨h1, h2⟩ := happ
                subst h1
                subst h2
                exact doSync_step_facts selfID cfg st0 env pairs none _ _ _ _ _ ih.1 hP hds
        | notifyA env msg =>
            unfold applyAct at happ
            dsimp only at happ
            cases hds : doSync selfID cfg st0 env [] (some msg) with
            | fatal trf =>
                rw [hds] at happ
                simp at happ
            | ok s c t e r =>
                rw [hds] at happ
                simp only [Option.some.injEq, Prod.mk.injEq] at happ
                obtain ⟨h1, h2⟩ := happ
                subst h1
                subst h2
                exact doSync_step_facts selfID cfg st0 env [] (some msg) _ _ _ _ _ ih.1
                  (by simp) hds
        | pendA envP =>
            unfold applyAct at happ
            dsimp only at happ
            cases hhp : handlePending selfID cfg st0 envP with
            | none =>
                rw [hhp] at happ
                simp at happ
            | some v =>
                obtain ⟨s, c, t⟩ := v
                rw [hhp] at happ
                simp only [Option.map_some', Option.some.injEq, Prod.mk.injEq] at happ
                obtain ⟨h1, h2⟩ := happ
                subst h1
                subst h2
                have hfp := handlePending_step_facts selfID cfg st0 envP _ _ _ ih.1 hhp
                refine ⟨?_, hfp.2.1, hfp.2.2⟩
                unfold lastWF
                rw [hfp.1]
                exact ih.1
      refine ⟨hfacts.1, ?_⟩
      intro p t
      obtain ⟨ihPW, ihB⟩ := ih.2 p t
      rw [writesAt_append]
      have hnew : ∀ w ∈ writesAt tr1 p t, w = lversion st' t := by
        intro w hw
        exact hfacts.2.2 _ (writesAt_mem hw)
      constructor
      · refine pairwise_le_append_const ihPW ?_ hnew
        intro w hw
        exact le_trans (ihB w hw) (hfacts.2.1 t)
      · intro w hw
        rcases List.mem_append.1 hw with hh | hh
        · exact le_trans (ihB w hh) (hfacts.2.1 t)
        · rw [hnew w hh]

/-! ## C2 (amended): per-peer per-tag write monotonicity -/

/-- C2 (amended): across any interleaving of syncs, notifies and pending
retries from the fresh metasyncer - provided each sync call's pair list
carries pairwise-distinct tags, as every caller does (with duplicate
tags in a single call the claim fails, see the counterexample) - the
sequence of values written to `revsmap[p].vermap[t]` is monotonically
non-decreasing for every peer `p` and tag `t`. -/
theorem c2_monotone_amended (selfID : String) (cfg : Config) (st : MetaState)
    (tr : List Event) (h : Reach actTagsNodup selfID cfg st tr) (p t : String) :
    List.Pairwise (fun a b => a ≤ b) (writesAt tr p t) :=
  ((reach_invariant selfID cfg st tr h).2 p t).1

/-- Witness for C2 (amended) on the concrete one-sync reachable trace. -/
theorem c2_monotone_witness :
    List.Pairwise (fun a b => a ≤ b) (writesAt tr1 "t1" "bucketmdtag") :=
  c2_monotone_amended "p" cfg0 st1 ([] ++ tr1)
    (@Reach.step actTagsNodup "p" cfg0 initMS [] (.syncA envOK [pairA]) st1 tr1
      Reach.init (by unfold actTagsNodup; decide) (by decide))
    "t1" "bucketmdtag"

/-! ## `handlePending` delivery and payload lemmas (towards C6) -/

theorem pendingCalcGo_nodup :
    ∀ (ids : List String) (st : MetaState) (count : Nat) (plist : List String)
      (st1 : MetaState) (c : Nat) (p : List String),
      plist.Nodup → pendingCalcGo ids st count plist = .ok (st1, c, p) → p.Nodup := by
  intro ids
  induction ids with
  | nil =>
      intro st count plist st1 c p hnd h
      simp only [pendingCalcGo, Except.ok.injEq, Prod.mk.injEq] at h
      rw [← h.2.2]
      exact hnd
  | cons id rest ih =>
      intro st count plist st1 c p hnd h
      unfold pendingCalcGo at h
      cases hvm : alookup st.revsmap id with
      | none =>
          rw [hvm] at h
          dsimp only at h
          exact ih _ _ _ _ _ _ (nodup_rinsert id hnd) h
      | some vm =>
          rw [hvm] at h
          dsimp only at h
          cases hc : checkInSync vm st.last with
          | error e =>
              rw [hc] at h
              simp at h
          | ok b =>
              rw [hc] at h
              cases b with
              | true =>
                  dsimp only at h
                  exact ih _ _ _ _ _ _ hnd h
              | false =>
                  dsimp only at h
                  exact ih _ _ _ _ _ _ (nodup_rinsert id hnd) h

theorem pendFold_preserves (out : String → Outcome) (pairs : List RevsPair) (q : String) :
    ∀ (l : List String) (acc : MetaState × Nat × List Event), q ∉ l →
      deliveredExact acc.1 q pairs → deliveredExact (l.foldl (pendStep out pairs) acc).1 q pairs := by
  intro l
  induction l with
  | nil => intro acc _ h; exact h
  | cons x xs ih =>
      intro acc hq h
      simp only [List.mem_cons, not_or] at hq
      rw [List.foldl_cons]
      refine ih (pendStep out pairs acc x) hq.2 ?_
      unfold pendStep
      cases out x with
      | ok => exact deliveredExact_syncDone_other x pairs hq.1 h
      | refused => exact h
      | errOther => exact h

theorem pendFold_delivers (out : String → Outcome) (pairs : List RevsPair)
    (hn : (pairs.map fun pr => pr.revs.tag).Nodup) :
    ∀ (l : List String) (acc : MetaState × Nat × List Event), l.Nodup →
      ∀ q ∈ l, out q = .ok →
        deliveredExact (l.foldl (pendStep out pairs) acc).1 q pairs := by
  intro l
  induction l with
  | nil => intro acc _ q hq; simp at hq
  | cons x xs ih =>
      intro acc hnd q hq hok
      simp only [List.nodup_cons] at hnd
      rw [List.foldl_cons]
      rcases List.mem_cons.1 hq with h | h
      · subst h
        refine pendFold_preserves out pairs q xs (pendStep out pairs acc q) hnd.1 ?_
        unfold pendStep
        rw [hok]
        exact syncDone_self acc.1 q pairs hn
      · exact ih (pendStep out pairs acc x) hnd.2 q h hok

theorem actiontag_ne (t : String) : t ≠ t ++ actiontag := by
  intro h
  have hl : t.length = (t ++ actiontag).length := by rw [← h]
  rw [String.length_append] at hl
  have : actiontag.length = 7 := by decide
  omega

theorem pendingPayload_go_notmem (l : List (String × Revs)) (t : String)
    (hk : t ∉ l.map Prod.fst) (ha : ∀ e ∈ l, t ≠ e.1 ++ actiontag) :
    ∀ m, alookup
        (l.foldl (fun m e =>
          aset (aset m e.1 e.2.marshalled) (e.1 ++ actiontag) pendingMsg.marshalled) m) t =
      alookup m t := by
  induction l with
  | nil => intro m; rfl
  | cons e0 rest ih =>
      intro m
      simp only [List.map_cons, List.mem_cons, not_or] at hk
      rw [List.foldl_cons]
      rw [ih hk.2 (fun e he => ha e (List.mem_cons_of_mem _ he)) _]
      rw [alookup_aset_ne _ _ _ _ (ha e0 (List.mem_cons_self _ _))]
      rw [alookup_aset_ne _ _ _ _ hk.1]

theorem pendingPayload_lookup (l : List (String × Revs))
    (hnd : (l.map Prod.fst).Nodup)
    (hcol : ∀ e1 ∈ l, ∀ e2 ∈ l, e1.1 ≠ e2.1 ++ actiontag) :
    ∀ e ∈ l, alookup (pendingPayload l) e.1 = some e.2.marshalled := by
  unfold pendingPayload
  suffices h : ∀ m, ∀ e ∈ l,
      alookup (l.foldl (fun m e =>
        aset (aset m e.1 e.2.marshalled) (e.1 ++ actiontag) pendingMsg.marshalled) m) e.1 =
      some e.2.marshalled by
    intro e he
    exact h [] e he
  induction l with
  | nil => intro m e he; simp at he
  | cons e0 rest ih =>
      intro m e he
      simp only [List.map_cons, List.nodup_cons] at hnd
      rw [List.foldl_cons]
      rcases List.mem_cons.1 he with h | h
      · subst h
        rw [pendingPayload_go_notmem rest e.1 hnd.1
          (fun e2 he2 => hcol e (List.mem_cons_self _ _) e2 (List.mem_cons_of_mem _ he2)) _]
        rw [alookup_aset_ne _ _ _ _ (hcol e (List.mem_cons_self _ _) e (List.mem_cons_self _ _))]
        exact alookup_aset_self _ _ _
      · exact ih hnd.2
          (fun e1 he1 e2 he2 =>
            hcol e1 (List.mem_cons_of_mem _ he1) e2 (List.mem_cons_of_mem _ he2)) _ e h

/-! ## C6: the retry timer and `handlePending` -/

theorem pairsOfLast_tags (l : List (String × Revs)) (hkc : ∀ e ∈ l, e.1 = e.2.tag) :
    (pairsOfLast l).map (fun pr => pr.revs.tag) = l.map Prod.fst := by
  unfold pairsOfLast
  rw [List.map_map]
  exact List.map_congr_left (fun e he => (hkc e he).symm)

/-- C6: a sync work request whose `doSync` reports failures leaves the
retry timer armed (resetting it to `retry-sync-time` when it was
stopped); when the timer fires, the `Run` loop re-arms it exactly when
`handlePending` counted a failed pending peer and stops it otherwise;
`handlePending` itself broadcasts one PUT with timeout
`cplane-operation` to exactly the pending peers (self excluded), whose
payload is built from every last-published tag, and records the
delivered versions of the peers that succeed. -/
theorem c6_retry_timer (selfID : String) (cfg : Config) :
    (∀ (ls : LoopState) (req : RevsReq) (env : SyncEnv) (ls' : LoopState) (tr : List Event)
        (rst : Option Nat) (st' : MetaState) (cnt : Nat) (trd : List Event) (e : Bool)
        (rem : List String),
      req.pairs ≠ [] →
      doSync selfID cfg ls.ms env req.pairs req.msgInt = .ok st' cnt trd e rem →
      runStep selfID cfg ls (.work req env) = some (ls', tr, rst) →
      cnt > 0 →
      ls'.timerStopped = false ∧ (ls.timerStopped = true → rst = some cfg.retrySyncTime)) ∧
    (∀ (ls : LoopState) (envP : PendEnv) (ls' : LoopState) (tr : List Event) (rst : Option Nat)
        (st' : MetaState) (cnt : Nat) (trc : List Event),
      handlePending selfID cfg ls.ms envP = some (st', cnt, trc) →
      runStep selfID cfg ls (.timerFire envP) = some (ls', tr, rst) →
      (cnt > 0 → rst = some cfg.retrySyncTime ∧ ls'.timerStopped = false) ∧
      (cnt = 0 → rst = none ∧ ls'.timerStopped = true)) ∧
    (∀ (st : MetaState) (envP : PendEnv) (st' : MetaState) (cnt : Nat) (trc : List Event)
        (st1 : MetaState) (count : Nat) (plist : List String),
      envP.smap.isPrimary selfID = true →
      pendingCalc st envP.smap = .ok (st1, count, plist) →
      count ≠ 0 →
      handlePending selfID cfg st envP = some (st', cnt, trc) →
      ∃ ws, trc = .bcastE "PUT" (.payloadB (pendingPayload st1.last)) cfg.cplaneOperation
          (plist.filter (fun q => q ≠ selfID)) :: ws ∧
        (plist.Nodup → (∀ e ∈ st1.last, e.1 = e.2.tag) → (st1.last.map Prod.fst).Nodup →
          ∀ q ∈ plist.filter (fun q => q ≠ selfID), envP.out q = .ok →
          ∀ e ∈ st1.last, vmLookup st' q e.2.tag = some e.2.version)) ∧
    (∀ (l : List (String × Revs)),
      (l.map Prod.fst).Nodup →
      (∀ e1 ∈ l, ∀ e2 ∈ l, e1.1 ≠ e2.1 ++ actiontag) →
      ∀ e ∈ l, alookup (pendingPayload l) e.1 = some e.2.marshalled) := by
  refine ⟨?_, ?_, ?_, ?_⟩
  · intro ls req env ls' tr rst st' cnt trd e rem hpairs hds hrun hcnt
    have hnil : req.isNil = false := by
      unfold RevsReq.isNil
      cases hpq : req.pairs with
      | nil => exact absurd hpq hpairs
      | cons a l => simp [hpq]
    unfold runStep at hrun
    dsimp only at hrun
    rw [hnil] at hrun
    simp only [Bool.false_eq_true, if_false] at hrun
    rw [hds] at hrun
    have hpe : req.pairs.isEmpty = false := by
      cases hpq : req.pairs with
      | nil => exact absurd hpq hpairs
      | cons a l => rfl
    have hcb : (decide (cnt > 0)) = true := decide_eq_true hcnt
    cases hts : ls.timerStopped with
    | true =>
        rw [hts] at hrun
        simp only [hcb, hpe, Bool.not_false, Bool.and_true, Bool.true_and,
          if_true, Option.some.injEq, Prod.mk.injEq] at hrun
        obtain ⟨h1, -, h3⟩ := hrun
        rw [← h1]
        exact ⟨rfl, fun _ => h3.symm⟩
    | false =>
        rw [hts] at hrun
        simp only [hcb, hpe, Bool.not_false, Bool.and_false, Bool.false_and,
          Bool.true_and, if_false, Option.some.injEq, Prod.mk.injEq] at hrun
        obtain ⟨-, -, -⟩ := hrun
        exact ⟨rfl, fun hc => Bool.noConfusion hc⟩
  · intro ls envP ls' tr rst st' cnt trc hhp hrun
    unfold runStep at hrun
    dsimp only at hrun
    rw [hhp] at hrun
    dsimp only at hrun
    by_cases hc : cnt > 0
    · rw [if_pos hc] at hrun
      simp only [Option.some.injEq, Prod.mk.injEq] at hrun
      obtain ⟨h1, -, h3⟩ := hrun
      rw [← h1]
      exact ⟨fun _ => ⟨h3.symm, rfl⟩, fun hz => absurd hz (by omega)⟩
    · rw [if_neg hc] at hrun
      simp only [Option.some.injEq, Prod.mk.injEq] at hrun
      obtain ⟨h1, -, h3⟩ := hrun
      rw [← h1]
      exact ⟨fun hp => absurd hp hc, fun _ => ⟨h3.symm, rfl⟩⟩
  · intro st envP st' cnt trc st1 count plist hprim hpc hcount h
    unfold handlePending at h
    dsimp only at h
    rw [if_neg (by rw [hprim]; exact fun hh => hh rfl)] at h
    rw [hpc] at h
    dsimp only at h
    rw [if_neg hcount] at h
    simp only [Option.some.injEq, Prod.mk.injEq] at h
    obtain ⟨h1, -, h3⟩ := h
    refine ⟨(plist.filter (fun q => q ≠ selfID)).foldl
        (pendStep envP.out (pairsOfLast st1.last)) (st1, 0, []) |>.2.2, h3.symm, ?_⟩
    intro hplnd hkc hknd q hq hok e he
    have htags : ((pairsOfLast st1.last).map fun pr => pr.revs.tag).Nodup := by
      rw [pairsOfLast_tags st1.last hkc]
      exact hknd
    have hdel := pendFold_delivers envP.out (pairsOfLast st1.last) htags
      (plist.filter (fun q => q ≠ selfID)) (st1, 0, [])
      (List.Nodup.filter _ hplnd) q hq hok
    have hpr : (⟨e.2, pendingMsg⟩ : RevsPair) ∈ pairsOfLast st1.last :=
      List.mem_map.2 ⟨e, he, rfl⟩
    have := hdel _ hpr
    rw [← h1]
    exact this
  · intro l hnd hcol e he
    exact pendingPayload_lookup l hnd hcol e he

/-- Witness for C6 at concrete inputs: a sync of `pairA` over `envFail`
fails and arms the stopped timer for `retry-sync-time`; a timer firing
over `envC` that clears the pending set stops the timer; the
`handlePending` broadcast over `st1` and `envC` has the stated shape and
records `t2`'s delivery; the pending payload covers the published tag. -/
theorem c6_retry_timer_witness :
    ((⟨stF, false⟩ : LoopState).timerStopped = false ∧
      ((⟨initMS, true⟩ : LoopState).timerStopped = true →
        (some cfg0.retrySyncTime : Option Nat) = some cfg0.retrySyncTime)) ∧
    ((0 > 0 → (none : Option Nat) = some cfg0.retrySyncTime ∧
        (⟨stP, true⟩ : LoopState).timerStopped = false) ∧
      (0 = 0 → (none : Option Nat) = none ∧ (⟨stP, true⟩ : LoopState).timerStopped = true)) ∧
    (∃ ws, trP = .bcastE "PUT" (.payloadB (pendingPayload stMid.last)) cfg0.cplaneOperation
        (["t2", "p"].filter (fun q => q ≠ "p")) :: ws ∧
      (["t2", "p"].Nodup → (∀ e ∈ stMid.last, e.1 = e.2.tag) →
        (stMid.last.map Prod.fst).Nodup →
        ∀ q ∈ ["t2", "p"].filter (fun q => q ≠ "p"), envC.out q = .ok →
        ∀ e ∈ stMid.last, vmLookup stP q e.2.tag = some e.2.version)) ∧
    (∀ e ∈ st1.last, alookup (pendingPayload st1.last) e.1 = some e.2.marshalled) := by
  obtain ⟨hA, hB, hC, hD⟩ := c6_retry_timer "p" cfg0
  exact ⟨hA ⟨initMS, true⟩ ⟨[pairA], none⟩ envFail ⟨stF, false⟩ trF (some cfg0.retrySyncTime)
      stF 1 trF false [] (by decide) (by decide) (by decide) (by decide),
    hB ⟨st1, false⟩ envC ⟨stP, true⟩ trP none stP 0 trP (by decide) (by decide),
    hC st1 envC stP 0 trP stMid 2 ["t2", "p"] (by decide) (by rfl) (by decide) (by decide),
    hD st1.last (by decide) (by decide)⟩
